import Mathlib

/-!
# libdmi: the Intel vendor-table decoder (`dmi_intel.c`)

A shallow embedding of `intel_parse_kv_table` and `intel_dmi_parser`.

* A record is a `dmi_header`: the two named header fields the code reads
  (`type`, `length`) and the bytes reachable from the record's start address,
  indexed by their offset from that address.  Offsets at or beyond `length`
  exist as memory (the C code can dereference them), they are simply outside
  the record.
* `parse_dmi_field` lives in another translation unit; it is a parameter of
  every function here, `parse_dmi_field dmi off size` standing for the call
  `parse_dmi_field(dmi, (unsigned char *)dmi + off, size)`; `none` is `NULL`.
* `error(...)` calls are collected in a log, and every access made through a
  computed pointer (a `parse_dmi_field` call or a `*offset` dereference) is
  collected in a trace, in program order.  The loads of the named header
  members `dmi->type`, `dmi->length` and `hdr->Version` (the byte at offset 5)
  are not part of the trace; they show in what the outcome depends on.
-/

namespace DmiIntel

/-! ## Constants of the source -/

def FORMAT_FIELD_MASK : Nat := 0xE0
def FORMAT_FIXED_TABLE : Nat := 0x00
def FORMAT_KV_TABLE : Nat := 0x20
def FORMAT_KTV_TABLE : Nat := 0x40
def FIELD_TYPE_BYTE : Nat := 0x1
def FIELD_TYPE_WORD : Nat := 0x2
def FIELD_TYPE_DWORD : Nat := 0x3
def FIELD_TYPE_STRING : Nat := 0x4

/-- The macro `is_legacy_table(v)`. -/
def is_legacy_table (v : Nat) : Bool := (v &&& FORMAT_FIELD_MASK) == FORMAT_FIXED_TABLE

/-! ## Data model -/

/-- A record as the decoder sees it: `dmi->type`, `dmi->length` (both
`unsigned char` in C) and the memory starting at the record's address. -/
structure dmi_header where
  type : Nat
  length : Nat
  data : Nat → Nat

/-- Modelled from the spec: `sizeof(struct dmi_header)`; the declaration is in
`parse_dmi.h`, which is not among the sources.  The generic header is four
bytes (type, length, handle), so the header extension starts at offset 4. -/
def sizeof_dmi_header : Nat := 4

/-- The value of `offsetof(struct platform_header, Platform)`. -/
def offsetof_Platform : Nat := sizeof_dmi_header

/-- The value of `offsetof(struct platform_header, Version)`. -/
def offsetof_Version : Nat := sizeof_dmi_header + 1

/-- The value of `sizeof(struct platform_header)`: header, `Platform`, `Version`. -/
def sizeof_platform_header : Nat := sizeof_dmi_header + 2

/-- The `unsigned char` stored `off` bytes after the record's start. -/
def byteAt (dmi : dmi_header) (off : Nat) : Nat := dmi.data off % 256

/-- The type of the external `parse_dmi_field`, seen from this file: record,
offset of the pointer argument from the record's start, size. -/
abbrev FieldParser := dmi_header → Nat → Nat → Option String

/-- One call of `error(...)`, by format string, with its arguments. -/
inductive Diag where
  /-- Format `"Unsupported table version: 0x%x"`. -/
  | unsupported_table_version (version : Nat)
  /-- Format `"No fields defined for table. DMI length: %d\n"`. -/
  | no_fields_defined (length : Nat)
  /-- Format `"Unsupported field type found: 0x%x\n"`. -/
  | unsupported_field_type (tag : Nat)
  /-- Format `"Unknown field %s for table 0x%x\n"`. -/
  | unknown_field (fieldname : String) (type : Nat)
  /-- Format `"Unsupported Intel table: 0x%x\n"`. -/
  | unsupported_intel_table (type : Nat)
  deriving DecidableEq, Repr

/-- One access through a computed pointer. -/
inductive Access where
  /-- The call `parse_dmi_field(dmi, (unsigned char *)dmi + off, size)`. -/
  | field (off size : Nat)
  /-- The dereference `*offset` with `offset == (unsigned char *)dmi + off`. -/
  | byte (off : Nat)
  deriving DecidableEq, Repr

/-- The offset of the first byte an access touches. -/
def Access.offset : Access → Nat
  | .field off _ => off
  | .byte off => off

/-- What a call of the decoder produced: the returned pointer (`none` for
`NULL`), the diagnostics and the pointer accesses, both in program order. -/
structure Outcome where
  value : Option String
  log : List Diag
  trace : List Access
  deriving DecidableEq, Repr

/-! ## The legacy (fixed layout) table -/

/-- Modelled from the spec: `struct field_desc` of `parse_dmi.h` (not among
the sources): a field name with its byte offset and decode width. -/
structure field_desc where
  name : String
  offset : Nat
  size : Nat
  deriving DecidableEq, Repr

/-- The members of `struct legacy_format` after `hdr`, in declaration order;
each is one `unsigned char`. -/
def legacy_format_members : List String :=
  ["GopVersion", "UCodeVersion", "MRCVersion", "SECVersion", "ULPMCVersion",
   "PMCVersion", "PUnitVersion", "SoCVersion", "BoardVersion", "FabVersion",
   "CPUFlavor", "BiosVersion", "PmicVersion", "TouchVersion", "SecureBoot",
   "BootMode", "SpeedStepMode", "CPUTurboMode", "MaxCState", "GfxTurbo",
   "S0ix", "RC6"]

/-- The value of `offsetof(struct legacy_format, member)`. -/
def offsetof_legacy_format (member : String) : Nat :=
  sizeof_dmi_header + legacy_format_members.indexOf member

/-- Modelled from the spec: the macro `FIELD_DESC(struct legacy_format, member,
size)` of `parse_dmi.h` (not among the sources): the member's name, its
offset in the structure and the given width. -/
def FIELD_DESC (member : String) (size : Nat) : field_desc :=
  ⟨member, offsetof_legacy_format member, size⟩

/-- The table `legacy_format_desc`. -/
def legacy_format_desc : List field_desc :=
  [FIELD_DESC "GopVersion" 0,
   FIELD_DESC "UCodeVersion" 0,
   FIELD_DESC "MRCVersion" 0,
   FIELD_DESC "SECVersion" 0,
   FIELD_DESC "ULPMCVersion" 0,
   FIELD_DESC "PMCVersion" 0,
   FIELD_DESC "PUnitVersion" 0,
   FIELD_DESC "SoCVersion" 0,
   FIELD_DESC "BoardVersion" 0,
   FIELD_DESC "FabVersion" 0,
   FIELD_DESC "CPUFlavor" 0,
   FIELD_DESC "BiosVersion" 0,
   FIELD_DESC "PmicVersion" 0,
   FIELD_DESC "TouchVersion" 0,
   FIELD_DESC "SecureBoot" 0,
   FIELD_DESC "BootMode" 0,
   FIELD_DESC "SpeedStepMode" 0,
   FIELD_DESC "CPUTurboMode" 0,
   FIELD_DESC "MaxCState" 0,
   FIELD_DESC "GfxTurbo" 0,
   FIELD_DESC "S0ix" 0,
   FIELD_DESC "RC6" 0]

/-- Modelled from the spec: the macro `PARSE_FIELD(legacy_format, dmi, field)`
of `parse_dmi.h` (not among the sources): the fixed-layout helper looks the
name up in the static table and, on a hit, makes the enclosing function return
the field extraction at the entry's (offset, width).  `none` means the macro
fell through to the statement after it. -/
def PARSE_FIELD (parse_dmi_field : FieldParser) (desc : List field_desc)
    (dmi : dmi_header) (field : String) : Option Outcome :=
  match desc.find? (fun d => d.name == field) with
  | some d => some ⟨parse_dmi_field dmi d.offset d.size, [], [Access.field d.offset d.size]⟩
  | none => none

/-! ## The key/value and key/type/value tables -/

/-- How a run of one of the two scanning loops ended. -/
inductive LoopExit where
  /-- A `return parse_dmi_field(...)` inside the loop. -/
  | returned (value : Option String)
  /-- A `break` after reporting the unsupported type tag (key/type/value only). -/
  | bad_tag (tag : Nat)
  /-- The loop condition became false. -/
  | finished
  deriving DecidableEq, Repr

/-- The `while (entries--)` loop of the `FORMAT_KV_TABLE` branch (lines
129-141).  The first argument is the value of `entries` when the loop
condition is evaluated; the body runs with `entries` already decremented. -/
def kv_loop (parse_dmi_field : FieldParser) (dmi : dmi_header) (fieldname : String) :
    Nat → List Access → LoopExit × List Access
  | 0, trace => (LoopExit.finished, trace)
  | entries + 1, trace =>
    let offset := sizeof_platform_header + (entries <<< 1)
    let value := parse_dmi_field dmi offset 0
    let trace := trace ++ [Access.field offset 0]
    if value.isSome ∧ value ≠ some fieldname then
      kv_loop parse_dmi_field dmi fieldname entries trace
    else
      (LoopExit.returned (parse_dmi_field dmi (offset + 1) 0),
        trace ++ [Access.field (offset + 1) 0])

/-- The `while (offset < last_entry)` loop of the `FORMAT_KTV_TABLE` branch
(lines 147-175), started with the pointer `offset` at `dmi + offset`. -/
def ktv_loop (parse_dmi_field : FieldParser) (dmi : dmi_header) (fieldname : String)
    (offset : Nat) (trace : List Access) : LoopExit × List Access :=
  let last_entry := dmi.length
  if offset < last_entry then
    let value := parse_dmi_field dmi offset 0
    let trace := trace ++ [Access.field offset 0]
    if value = some fieldname then
      let offset := offset + 1
      let trace := trace ++ [Access.byte offset]
      if byteAt dmi offset = 0 ∨ byteAt dmi offset > FIELD_TYPE_STRING then
        (LoopExit.bad_tag (byteAt dmi offset), trace)
      else
        let type_size :=
          if byteAt dmi offset ≠ FIELD_TYPE_STRING then 1 <<< (byteAt dmi offset - 1) else 0
        let offset := offset + 1
        (LoopExit.returned (parse_dmi_field dmi offset type_size),
          trace ++ [Access.field offset type_size])
    else
      let offset := offset + 1
      let trace := trace ++ [Access.byte offset]
      if byteAt dmi offset = 0 ∨ byteAt dmi offset > FIELD_TYPE_STRING then
        (LoopExit.bad_tag (byteAt dmi offset), trace)
      else
        let offset := offset +
          (if byteAt dmi offset = FIELD_TYPE_STRING then 1 else 1 <<< (byteAt dmi offset - 1))
        let offset := offset + 1
        ktv_loop parse_dmi_field dmi fieldname offset trace
  else
    (LoopExit.finished, trace)
termination_by dmi.length - offset
decreasing_by
  simp_wf
  omega

/-- The function `intel_parse_kv_table`. -/
def intel_parse_kv_table (parse_dmi_field : FieldParser) (dmi : dmi_header)
    (fieldname : String) : Outcome :=
  let Version := byteAt dmi offsetof_Version
  let table_format := Version &&& FORMAT_FIELD_MASK
  let unknown := Diag.unknown_field fieldname dmi.type
  if table_format > FORMAT_KTV_TABLE then
    ⟨none, [Diag.unsupported_table_version Version], []⟩
  else if fieldname = "Platform" then
    ⟨parse_dmi_field dmi offsetof_Platform 0, [], [Access.field offsetof_Platform 0]⟩
  else if fieldname = "Version" then
    ⟨parse_dmi_field dmi offsetof_Version 1, [], [Access.field offsetof_Version 1]⟩
  else if dmi.length ≤ sizeof_platform_header then
    ⟨none, [Diag.no_fields_defined dmi.length, unknown], []⟩
  else if table_format = FORMAT_KV_TABLE then
    let entries := (dmi.length - sizeof_platform_header) / 2
    match kv_loop parse_dmi_field dmi fieldname entries [] with
    | (LoopExit.returned value, trace) => ⟨value, [], trace⟩
    | (_, trace) => ⟨none, [unknown], trace⟩
  else if table_format = FORMAT_KTV_TABLE then
    match ktv_loop parse_dmi_field dmi fieldname sizeof_platform_header [] with
    | (LoopExit.returned value, trace) => ⟨value, [], trace⟩
    | (LoopExit.bad_tag tag, trace) => ⟨none, [Diag.unsupported_field_type tag, unknown], trace⟩
    | (LoopExit.finished, trace) => ⟨none, [unknown], trace⟩
  else
    ⟨none, [unknown], []⟩

/-- The function `intel_dmi_parser` of the source.  `INTEL_SMBIOS` is a constant of
`dmi_intel.h`, which is not among the sources; it is a parameter.  When
`PARSE_FIELD` falls through, the `break` leads to the final `return NULL`. -/
def intel_dmi_parser_fn (INTEL_SMBIOS : Nat) (parse_dmi_field : FieldParser)
    (dmi : dmi_header) (field : String) : Outcome :=
  if dmi.type = INTEL_SMBIOS then
    if !is_legacy_table (byteAt dmi offsetof_Version) then
      intel_parse_kv_table parse_dmi_field dmi field
    else
      match PARSE_FIELD parse_dmi_field legacy_format_desc dmi field with
      | some out => out
      | none => ⟨none, [], []⟩
  else
    ⟨none, [Diag.unsupported_intel_table dmi.type], []⟩

/-! ## The entries of a key/type/value payload -/

/-- The pointer advance of a non-matching key/type/value entry that starts at
`offset` (lines 166, 172 and 174): past the key byte, then by one byte for
`FIELD_TYPE_STRING` or `1 << (tag - 1)` bytes otherwise, then past one more byte. -/
def ktv_next (dmi : dmi_header) (offset : Nat) : Nat :=
  let tag := byteAt dmi (offset + 1)
  (offset + 1) + (if tag = FIELD_TYPE_STRING then 1 else 1 <<< (tag - 1)) + 1

/-- Where the `n`-th entry of the forward scan starts: the first one right
after the platform header, each further one where `ktv_next` leaves the pointer. -/
def ktv_entry (dmi : dmi_header) : Nat → Nat
  | 0 => sizeof_platform_header
  | n + 1 => ktv_next dmi (ktv_entry dmi n)

/-! ## Sample records -/

/-- A sample field decoder: with width 0 a non-zero byte is rendered as the
one-character text with that code and a zero byte is not decodable (`NULL`);
with any other width the first byte is rendered after a `#`. -/
def sample_parse_dmi_field : FieldParser := fun dmi off size =>
  if size = 0 then
    if byteAt dmi off = 0 then none
    else some (String.singleton (Char.ofNat (byteAt dmi off)))
  else some ("#" ++ String.singleton (Char.ofNat (byteAt dmi off)))

/-- A record with the given header fields over the given bytes of memory. -/
def record_of (type length : Nat) (bytes : List Nat) : dmi_header :=
  ⟨type, length, fun off => bytes.getD off 0⟩

/-- Key/value, three pairs: `("X", "a")`, `("X", "b")` and a pair whose key
byte 0 does not decode, with value `"c"`. -/
def sample_kv_null_key : dmi_header :=
  record_of 0x94 12 [0x94, 12, 0, 0, 1, 0x20, 0x58, 0x61, 0x58, 0x62, 0, 0x63]

/-- Key/value, one pair whose key byte 0 does not decode, with value `"v"`. -/
def sample_kv_undecodable : dmi_header :=
  record_of 0x94 8 [0x94, 8, 0, 0, 1, 0x20, 0, 0x76]

/-- Key/type/value, two entries: `"A"` with a Word value and `"B"` with a
DWord value. -/
def sample_ktv_words : dmi_header :=
  record_of 0x94 16 [0x94, 16, 0, 0, 1, 0x40, 0x41, 2, 0x34, 0x12, 0x42, 3, 1, 2, 3, 4]

/-- Key/type/value, payload `[key "A", tag 0x1, value 0x7F, key "B", tag 0x9]`. -/
def sample_ktv_bad_tag : dmi_header :=
  record_of 0x94 11 [0x94, 11, 0, 0, 1, 0x40, 0x41, 1, 0x7F, 0x42, 9]

/-- Key/type/value of declared length 7: the payload is the single key byte
`"A"`; the bytes `3, 1, 2, 3, 4` lie in memory after the record. -/
def sample_ktv_short : dmi_header :=
  record_of 0x94 7 [0x94, 7, 0, 0, 1, 0x40, 0x41, 3, 1, 2, 3, 4]

/-- A record of type `INTEL_SMBIOS` whose version byte 0x61 has the reserved
top bits 0x60. -/
def sample_reserved : dmi_header :=
  record_of 0x94 8 [0x94, 8, 0, 0, 1, 0x61, 0x41, 0x61]

/-- Key/value with nothing after the platform header (declared length 6). -/
def sample_header_only : dmi_header :=
  record_of 0x94 6 [0x94, 6, 0, 0, 1, 0x20]

/-- A legacy (fixed layout) record with its 22 one-byte fields; the second
one, at offset 5, is 0x01, so the top three bits of that byte are 0. -/
def sample_legacy : dmi_header :=
  record_of 0x94 26 [0x94, 26, 0, 0, 0x41, 0x01, 0x43, 0x44, 0x45, 0x46, 0x47, 0x48,
    0x49, 0x4A, 0x4B, 0x4C, 0x4D, 0x4E, 0x4F, 0x50, 0x51, 0x52, 0x53, 0x54, 0x55, 0x56]

/-- A record of another type (0x01) than `INTEL_SMBIOS`. -/
def sample_foreign : dmi_header :=
  record_of 0x01 8 [0x01, 8, 0, 0, 1, 0x20, 0x41, 0x61]

/-- Whether an access is a `*offset` dereference; in the forward scan these
are the reads of a type tag, one per entry examined. -/
def Access.isByte : Access → Bool
  | .field _ _ => false
  | .byte _ => true

/-- The number of type-tag dereferences in a trace: the number of entries the
forward scan examined. -/
def tag_reads (trace : List Access) : Nat := trace.countP Access.isByte

/-- A second sample field decoder: every byte is rendered as its decimal text,
whatever the width (byte 0x01 is the text `"1"`). -/
def sample_decimal_field : FieldParser := fun dmi off _ =>
  some (toString (byteAt dmi off))

/-- Key/type/value, where the String entry `"A"` is followed by the inline text
`h`, `i`, NUL (offsets 8, 9, 10) and then by the entry `"B"` (Byte, 0x7F) at
offset 11. -/
def sample_ktv_inline_string : dmi_header :=
  record_of 0x94 14 [0x94, 14, 0, 0, 1, 0x40, 0x41, 4, 0x68, 0x69, 0, 0x42, 1, 0x7F]

/-- Key/type/value, where the String entry `"A"` has a one-byte value and is
followed at offset 9 by the entry `"B"` (Byte, 0x7F). -/
def sample_ktv_string_ref : dmi_header :=
  record_of 0x94 12 [0x94, 12, 0, 0, 1, 0x40, 0x41, 4, 0x68, 0x42, 1, 0x7F]

/-- A record whose declared length 4 covers the generic header only; in the
memory after it, offset 4 holds `"P"` and offset 5 the version byte 0x20. -/
def sample_truncated : dmi_header :=
  record_of 0x94 4 [0x94, 4, 0, 0, 0x50, 0x20, 0x41, 0x61]

/-- The record `dmi` with the byte stored `off` bytes after its start replaced
by `v`; the declared type and length are kept. -/
def with_byte (dmi : dmi_header) (off v : Nat) : dmi_header :=
  ⟨dmi.type, dmi.length, fun i => if i = off then v else dmi.data i⟩

/-- Key/value of declared length 6 over the bytes `[0x01, 0x10, 0x01, 0x20]`
after the platform header. -/
def sample_kv_example_len6 : dmi_header :=
  record_of 0x94 6 [0x94, 6, 0, 0, 1, 0x20, 0x01, 0x10, 0x01, 0x20]

/-- Key/value of declared length 10: the platform header and the payload
`[0x01, 0x10, 0x01, 0x20]`. -/
def sample_kv_example_len10 : dmi_header :=
  record_of 0x94 10 [0x94, 10, 0, 0, 1, 0x20, 0x01, 0x10, 0x01, 0x20]

/-- Key/value, two pairs `("A", "a")` and `("B", "b")`, and a trailing byte:
the declared length is 11. -/
def sample_kv_pairs : dmi_header :=
  record_of 0x94 11 [0x94, 11, 0, 0, 1, 0x20, 0x41, 0x61, 0x42, 0x62, 0x43]

/-- Key/value, two pairs: `("A", "a")` and a pair whose key byte 0 does not
decode, with value `"n"`. -/
def sample_kv_match_below_null : dmi_header :=
  record_of 0x94 10 [0x94, 10, 0, 0, 1, 0x20, 0x41, 0x61, 0, 0x6E]

/-! ## The forward scan, step by step -/

theorem ktv_next_gt (dmi : dmi_header) (o : Nat) : o + 2 < ktv_next dmi o := by
  unfold ktv_next
  simp only
  split
  · omega
  · have : 0 < 1 <<< (byteAt dmi (o + 1) - 1) := by
      rw [Nat.one_shiftLeft]; exact Nat.pos_pow_of_pos _ (by decide)
    omega

theorem ktv_entry_mono (dmi : dmi_header) {i n : Nat} (h : i ≤ n) :
    ktv_entry dmi i ≤ ktv_entry dmi n := by
  induction n with
  | zero => simp at h; subst h; exact le_refl _
  | succ n ih =>
    rcases Nat.lt_or_ge i (n + 1) with hlt | hge
    · have := ih (by omega)
      have h2 := ktv_next_gt dmi (ktv_entry dmi n)
      simp only [ktv_entry]
      omega
    · have : i = n + 1 := by omega
      subst this; exact le_refl _

theorem ktv_entry_ge (dmi : dmi_header) (n : Nat) : 6 ≤ ktv_entry dmi n := by
  have := ktv_entry_mono dmi (Nat.zero_le n)
  simpa [ktv_entry, sizeof_platform_header, sizeof_dmi_header] using this

/-- One iteration over an entry whose key does not match and whose tag is supported. -/
theorem ktv_loop_skip (pdf : FieldParser) (dmi : dmi_header) (name : String)
    (o : Nat) (tr : List Access) (hin : o < dmi.length)
    (hkey : pdf dmi o 0 ≠ some name)
    (h1 : 1 ≤ byteAt dmi (o + 1)) (h4 : byteAt dmi (o + 1) ≤ 4) :
    ktv_loop pdf dmi name o tr
      = ktv_loop pdf dmi name (ktv_next dmi o) (tr ++ [Access.field o 0, Access.byte (o + 1)]) := by
  rw [ktv_loop]
  have hbad : ¬ (byteAt dmi (o + 1) = 0 ∨ byteAt dmi (o + 1) > FIELD_TYPE_STRING) := by
    simp only [FIELD_TYPE_STRING]; omega
  simp only [hin, if_true, hkey, if_false, hbad, ktv_next, List.append_assoc, List.singleton_append]

/-- An iteration over an entry whose tag is unsupported. -/
theorem ktv_loop_bad_tag (pdf : FieldParser) (dmi : dmi_header) (name : String)
    (o : Nat) (tr : List Access) (hin : o < dmi.length)
    (hbad : byteAt dmi (o + 1) = 0 ∨ byteAt dmi (o + 1) > 4) :
    ktv_loop pdf dmi name o tr
      = (LoopExit.bad_tag (byteAt dmi (o + 1)), tr ++ [Access.field o 0, Access.byte (o + 1)]) := by
  rw [ktv_loop]
  have hbad2 : (byteAt dmi (o + 1) = 0 ∨ byteAt dmi (o + 1) > FIELD_TYPE_STRING) := by
    simpa only [FIELD_TYPE_STRING] using hbad
  by_cases hkey : pdf dmi o 0 = some name
  · simp only [hin, if_true, hkey, hbad2, List.append_assoc, List.singleton_append]
  · simp only [hin, if_true, hkey, if_false, hbad2, List.append_assoc, List.singleton_append]

/-- An iteration over an entry whose key matches and whose tag is supported. -/
theorem ktv_loop_match (pdf : FieldParser) (dmi : dmi_header) (name : String)
    (o : Nat) (tr : List Access) (hin : o < dmi.length)
    (hkey : pdf dmi o 0 = some name)
    (h1 : 1 ≤ byteAt dmi (o + 1)) (h4 : byteAt dmi (o + 1) ≤ 4) :
    ktv_loop pdf dmi name o tr
      = (LoopExit.returned (pdf dmi (o + 2)
            (if byteAt dmi (o + 1) ≠ 4 then 1 <<< (byteAt dmi (o + 1) - 1) else 0)),
          tr ++ [Access.field o 0, Access.byte (o + 1),
            Access.field (o + 2) (if byteAt dmi (o + 1) ≠ 4 then 1 <<< (byteAt dmi (o + 1) - 1) else 0)]) := by
  rw [ktv_loop]
  have hbad : ¬ (byteAt dmi (o + 1) = 0 ∨ byteAt dmi (o + 1) > 4) := by omega
  simp only [hin, if_true, hkey, FIELD_TYPE_STRING, List.append_assoc,
    List.singleton_append, List.cons_append, List.nil_append]
  rw [if_neg hbad]

/-- The loop left once the pointer is at or past the end of the record. -/
theorem ktv_loop_done (pdf : FieldParser) (dmi : dmi_header) (name : String)
    (o : Nat) (tr : List Access) (hout : dmi.length ≤ o) :
    ktv_loop pdf dmi name o tr = (LoopExit.finished, tr) := by
  rw [ktv_loop]
  have : ¬ o < dmi.length := by omega
  simp only [this, if_false]

/-- The scan walks over `n` non-matching, well-tagged entries and arrives at the
`n`-th entry having touched nothing at or after it. -/
theorem ktv_loop_reach (pdf : FieldParser) (dmi : dmi_header) (name : String) (n : Nat)
    (hin : ∀ i, i < n → ktv_entry dmi i < dmi.length)
    (hskip : ∀ i, i < n → pdf dmi (ktv_entry dmi i) 0 ≠ some name ∧
      1 ≤ byteAt dmi (ktv_entry dmi i + 1) ∧ byteAt dmi (ktv_entry dmi i + 1) ≤ 4) :
    ∃ tr, ktv_loop pdf dmi name sizeof_platform_header []
        = ktv_loop pdf dmi name (ktv_entry dmi n) tr ∧
      ∀ a ∈ tr, a.offset < ktv_entry dmi n := by
  induction n with
  | zero => exact ⟨[], rfl, by simp⟩
  | succ n ih =>
    obtain ⟨tr, heq, hbound⟩ := ih (fun i hi => hin i (by omega)) (fun i hi => hskip i (by omega))
    obtain ⟨hkey, h1, h4⟩ := hskip n (by omega)
    refine ⟨tr ++ [Access.field (ktv_entry dmi n) 0, Access.byte (ktv_entry dmi n + 1)], ?_, ?_⟩
    · rw [heq, ktv_loop_skip pdf dmi name _ tr (hin n (by omega)) hkey h1 h4]
      rfl
    · intro a ha
      have hgt := ktv_next_gt dmi (ktv_entry dmi n)
      simp only [List.mem_append, List.mem_cons, List.mem_singleton, List.not_mem_nil, or_false] at ha
      simp only [ktv_entry]
      rcases ha with ha | ha | ha
      · have := hbound a ha; omega
      · subst ha; simp only [Access.offset]; omega
      · subst ha; simp only [Access.offset]; omega

/-! ## Dispatch and the reverse scan -/

/-- A version byte of one of the two key-based classes is not a legacy one. -/
theorem not_legacy_of_keyed {v : Nat} (h : v &&& 0xE0 = 0x20 ∨ v &&& 0xE0 = 0x40) :
    is_legacy_table v = false := by
  simp only [is_legacy_table, FORMAT_FIELD_MASK, FORMAT_FIXED_TABLE, beq_eq_false_iff_ne]
  omega

/-- Dispatch of a key/value record with a payload to the reverse scan. -/
theorem parser_kv_eq (INTEL_SMBIOS : Nat) (pdf : FieldParser) (dmi : dmi_header)
    (name : String) (htype : dmi.type = INTEL_SMBIOS)
    (hver : byteAt dmi 5 &&& 0xE0 = 0x20) (hlen : 6 < dmi.length)
    (hP : name ≠ "Platform") (hV : name ≠ "Version") :
    intel_dmi_parser_fn INTEL_SMBIOS pdf dmi name =
      match kv_loop pdf dmi name ((dmi.length - 6) / 2) [] with
      | (LoopExit.returned value, trace) => ⟨value, [], trace⟩
      | (_, trace) => ⟨none, [Diag.unknown_field name dmi.type], trace⟩ := by
  have hleg := not_legacy_of_keyed (Or.inl hver)
  have hlen2 : ¬ dmi.length ≤ 6 := by omega
  simp only [intel_dmi_parser_fn, htype, offsetof_Version, sizeof_dmi_header, hleg,
    intel_parse_kv_table, FORMAT_FIELD_MASK, FORMAT_KTV_TABLE, FORMAT_KV_TABLE,
    sizeof_platform_header, hver]
  simp [hP, hV, hlen2]

/-- Dispatch of a key/type/value record with a payload to the forward scan. -/
theorem parser_ktv_eq (INTEL_SMBIOS : Nat) (pdf : FieldParser) (dmi : dmi_header)
    (name : String) (htype : dmi.type = INTEL_SMBIOS)
    (hver : byteAt dmi 5 &&& 0xE0 = 0x40) (hlen : 6 < dmi.length)
    (hP : name ≠ "Platform") (hV : name ≠ "Version") :
    intel_dmi_parser_fn INTEL_SMBIOS pdf dmi name =
      match ktv_loop pdf dmi name sizeof_platform_header [] with
      | (LoopExit.returned value, trace) => ⟨value, [], trace⟩
      | (LoopExit.bad_tag tag, trace) =>
        ⟨none, [Diag.unsupported_field_type tag, Diag.unknown_field name dmi.type], trace⟩
      | (LoopExit.finished, trace) => ⟨none, [Diag.unknown_field name dmi.type], trace⟩ := by
  have hleg := not_legacy_of_keyed (Or.inr hver)
  have hlen2 : ¬ dmi.length ≤ 6 := by omega
  simp only [intel_dmi_parser_fn, htype, offsetof_Version, sizeof_dmi_header, hleg,
    intel_parse_kv_table, FORMAT_FIELD_MASK, FORMAT_KTV_TABLE, FORMAT_KV_TABLE,
    sizeof_platform_header, hver]
  simp [hP, hV, hlen2]

/-- The reverse scan runs to the end when every key decodes to another name. -/
theorem kv_loop_finished (pdf : FieldParser) (dmi : dmi_header) (name : String)
    (n : Nat) (tr : List Access)
    (hskip : ∀ j, j < n → ∃ v, pdf dmi (6 + 2 * j) 0 = some v ∧ v ≠ name) :
    (kv_loop pdf dmi name n tr).1 = LoopExit.finished := by
  induction n generalizing tr with
  | zero => rfl
  | succ n ih =>
    obtain ⟨v, hv, hne⟩ := hskip n (by omega)
    have hoff : sizeof_platform_header + (n <<< 1) = 6 + 2 * n := by
      simp only [sizeof_platform_header, sizeof_dmi_header, Nat.shiftLeft_eq]; omega
    simp only [kv_loop, hoff, hv, Option.isSome_some, ne_eq, Option.some.injEq, hne,
      not_false_eq_true, and_self, if_true]
    exact ih _ (fun j hj => hskip j (by omega))

/-- The reverse scan returns at the highest pair it does not skip: the value
byte of pair `i` is decoded when the key of `i` is the requested name or does
not decode, and every pair above `i` has a key that decodes to another name. -/
theorem kv_loop_returned (pdf : FieldParser) (dmi : dmi_header) (name : String)
    (n i : Nat) (tr : List Access) (hi : i < n)
    (hskip : ∀ j, i < j → j < n → ∃ v, pdf dmi (6 + 2 * j) 0 = some v ∧ v ≠ name)
    (hstop : pdf dmi (6 + 2 * i) 0 = none ∨ pdf dmi (6 + 2 * i) 0 = some name) :
    (kv_loop pdf dmi name n tr).1 = LoopExit.returned (pdf dmi (7 + 2 * i) 0) := by
  induction n generalizing tr with
  | zero => omega
  | succ n ih =>
    have hoff : sizeof_platform_header + (n <<< 1) = 6 + 2 * n := by
      simp only [sizeof_platform_header, sizeof_dmi_header, Nat.shiftLeft_eq]; omega
    rcases Nat.lt_or_ge i n with hlt | hge
    · obtain ⟨v, hv, hne⟩ := hskip n hlt (by omega)
      simp only [kv_loop, hoff, hv, Option.isSome_some, ne_eq, Option.some.injEq, hne,
        not_false_eq_true, and_self, if_true]
      exact ih _ hlt (fun j h1 h2 => hskip j h1 (by omega))
    · have hin : i = n := by omega
      subst hin
      have h7 : 6 + 2 * i + 1 = 7 + 2 * i := by omega
      rcases hstop with h | h
      · simp [kv_loop, hoff, h, h7]
      · simp [kv_loop, hoff, h, h7]

/-! ## Dispatch on the record type and the version byte -/

/-- Claim C5: for a record of type `INTEL_SMBIOS` whose version byte has top
three bits above 0x40, every lookup (any field name, length and payload)
returns no value, reports the unsupported version, and makes no field
extraction nor any other pointer access. -/
theorem reserved_top_bits_unsupported (INTEL_SMBIOS : Nat) (parse_dmi_field : FieldParser)
    (dmi : dmi_header) (field : String) (htype : dmi.type = INTEL_SMBIOS)
    (hver : byteAt dmi 5 &&& 0xE0 > 0x40) :
    intel_dmi_parser_fn INTEL_SMBIOS parse_dmi_field dmi field
      = ⟨none, [Diag.unsupported_table_version (byteAt dmi 5)], []⟩ := by
  have hleg : is_legacy_table (byteAt dmi 5) = false := by
    simp only [is_legacy_table, FORMAT_FIELD_MASK, FORMAT_FIXED_TABLE, beq_eq_false_iff_ne]
    omega
  simp only [intel_dmi_parser_fn, htype, offsetof_Version, sizeof_dmi_header, hleg,
    intel_parse_kv_table, FORMAT_FIELD_MASK, FORMAT_KTV_TABLE]
  simp [hver]

/-- Claim C5 at `sample_reserved` (version byte 0x61), for the name `"Platform"`. -/
theorem reserved_top_bits_unsupported_witness :
    intel_dmi_parser_fn 0x94 sample_parse_dmi_field sample_reserved "Platform"
      = ⟨none, [Diag.unsupported_table_version 0x61], []⟩ :=
  reserved_top_bits_unsupported 0x94 sample_parse_dmi_field sample_reserved "Platform"
    rfl (by decide)

/-- Claim C6: for a record of type `INTEL_SMBIOS` of class key/value or
key/type/value, the lookup of `"Platform"` is the field extraction at offset 4
and the lookup of `"Version"` the field extraction at offset 5 (the first with
width 0, the second with width 1); that extraction is the only access made,
whatever the class, the declared length and the payload. -/
theorem platform_version_fixed_offsets (INTEL_SMBIOS : Nat) (parse_dmi_field : FieldParser)
    (dmi : dmi_header) (htype : dmi.type = INTEL_SMBIOS)
    (hver : byteAt dmi 5 &&& 0xE0 = 0x20 ∨ byteAt dmi 5 &&& 0xE0 = 0x40) :
    intel_dmi_parser_fn INTEL_SMBIOS parse_dmi_field dmi "Platform"
        = ⟨parse_dmi_field dmi 4 0, [], [Access.field 4 0]⟩ ∧
    intel_dmi_parser_fn INTEL_SMBIOS parse_dmi_field dmi "Version"
        = ⟨parse_dmi_field dmi 5 1, [], [Access.field 5 1]⟩ := by
  have hleg := not_legacy_of_keyed hver
  have hle : ¬ (byteAt dmi 5 &&& 0xE0 > 0x40) := by omega
  constructor
  · simp only [intel_dmi_parser_fn, htype, offsetof_Version, offsetof_Platform,
      sizeof_dmi_header, hleg, intel_parse_kv_table, FORMAT_FIELD_MASK, FORMAT_KTV_TABLE]
    simp [hle]
  · simp only [intel_dmi_parser_fn, htype, offsetof_Version, offsetof_Platform,
      sizeof_dmi_header, hleg, intel_parse_kv_table, FORMAT_FIELD_MASK, FORMAT_KTV_TABLE]
    simp [hle]

/-- Claim C6 at `sample_ktv_bad_tag`, a key/type/value record whose payload is
malformed: both lookups still answer from the header extension. -/
theorem platform_version_fixed_offsets_witness :
    intel_dmi_parser_fn 0x94 sample_parse_dmi_field sample_ktv_bad_tag "Platform"
        = ⟨sample_parse_dmi_field sample_ktv_bad_tag 4 0, [], [Access.field 4 0]⟩ ∧
    intel_dmi_parser_fn 0x94 sample_parse_dmi_field sample_ktv_bad_tag "Version"
        = ⟨sample_parse_dmi_field sample_ktv_bad_tag 5 1, [], [Access.field 5 1]⟩ :=
  platform_version_fixed_offsets 0x94 sample_parse_dmi_field sample_ktv_bad_tag
    rfl (Or.inr (by decide))

/-- The fixed-layout helper, on the `k`-th member of `struct legacy_format`. -/
theorem PARSE_FIELD_legacy (parse_dmi_field : FieldParser) (dmi : dmi_header)
    (k : Nat) (name : String) (h : legacy_format_members[k]? = some name) :
    PARSE_FIELD parse_dmi_field legacy_format_desc dmi name
      = some ⟨parse_dmi_field dmi (4 + k) 0, [], [Access.field (4 + k) 0]⟩ := by
  have hk : k < 22 := by
    have := (List.getElem?_eq_some_iff.1 h).1
    simpa [legacy_format_members] using this
  interval_cases k <;> (simp [legacy_format_members] at h; subst h; rfl)

/-- Claim C7: for a record of type `INTEL_SMBIOS` of the fixed-layout class
(version byte with top three bits 0), the lookup of the `k`-th of the 22 legacy
field names is the field extraction at offset `4 + k` with width 0. -/
theorem legacy_lookup_by_offset (INTEL_SMBIOS : Nat) (parse_dmi_field : FieldParser)
    (dmi : dmi_header) (k : Nat) (name : String)
    (htype : dmi.type = INTEL_SMBIOS) (hver : byteAt dmi 5 &&& 0xE0 = 0)
    (hname : ["GopVersion", "UCodeVersion", "MRCVersion", "SECVersion", "ULPMCVersion",
      "PMCVersion", "PUnitVersion", "SoCVersion", "BoardVersion", "FabVersion",
      "CPUFlavor", "BiosVersion", "PmicVersion", "TouchVersion", "SecureBoot",
      "BootMode", "SpeedStepMode", "CPUTurboMode", "MaxCState", "GfxTurbo",
      "S0ix", "RC6"][k]? = some name) :
    intel_dmi_parser_fn INTEL_SMBIOS parse_dmi_field dmi name
      = ⟨parse_dmi_field dmi (4 + k) 0, [], [Access.field (4 + k) 0]⟩ := by
  have hleg : is_legacy_table (byteAt dmi 5) = true := by
    simp only [is_legacy_table, FORMAT_FIELD_MASK, FORMAT_FIXED_TABLE, hver, beq_self_eq_true]
  simp only [intel_dmi_parser_fn, htype, offsetof_Version, sizeof_dmi_header, hleg,
    PARSE_FIELD_legacy parse_dmi_field dmi k name hname]
  simp

/-- Claim C7 at `sample_legacy`, for the last name: `"RC6"` is the byte at
offset 25. -/
theorem legacy_lookup_by_offset_witness :
    intel_dmi_parser_fn 0x94 sample_parse_dmi_field sample_legacy "RC6"
      = ⟨sample_parse_dmi_field sample_legacy (4 + 21) 0, [], [Access.field (4 + 21) 0]⟩ :=
  legacy_lookup_by_offset 0x94 sample_parse_dmi_field sample_legacy 21 "RC6"
    rfl (by decide) (by decide)

/-- Claim C8: for a key/value or key/type/value record whose declared length
is at most 6 and a field name other than `"Platform"` and `"Version"`, the
lookup returns no value, makes no pointer access at all, and reports "no
fields defined" with the observed length (followed by "unknown field"). -/
theorem header_only_record_no_fields (INTEL_SMBIOS : Nat) (parse_dmi_field : FieldParser)
    (dmi : dmi_header) (fieldname : String) (htype : dmi.type = INTEL_SMBIOS)
    (hver : byteAt dmi 5 &&& 0xE0 = 0x20 ∨ byteAt dmi 5 &&& 0xE0 = 0x40)
    (hlen : dmi.length ≤ 6)
    (hP : fieldname ≠ "Platform") (hV : fieldname ≠ "Version") :
    intel_dmi_parser_fn INTEL_SMBIOS parse_dmi_field dmi fieldname
      = ⟨none, [Diag.no_fields_defined dmi.length,
          Diag.unknown_field fieldname dmi.type], []⟩ := by
  have hleg := not_legacy_of_keyed hver
  have hle : ¬ (byteAt dmi 5 &&& 0xE0 > 0x40) := by omega
  simp only [intel_dmi_parser_fn, htype, offsetof_Version, offsetof_Platform,
    sizeof_dmi_header, hleg, intel_parse_kv_table, FORMAT_FIELD_MASK, FORMAT_KTV_TABLE,
    sizeof_platform_header]
  simp [hle, hP, hV, hlen]

/-- Claim C8 at `sample_header_only` (declared length 6), for the name `"A"`. -/
theorem header_only_record_no_fields_witness :
    intel_dmi_parser_fn 0x94 sample_parse_dmi_field sample_header_only "A"
      = ⟨none, [Diag.no_fields_defined 6, Diag.unknown_field "A" 0x94], []⟩ :=
  header_only_record_no_fields 0x94 sample_parse_dmi_field sample_header_only "A"
    rfl (Or.inl (by decide)) (by decide) (by decide) (by decide)

/-- Claim C10: for a record whose type is not `INTEL_SMBIOS`, every lookup
(any field name, version byte, length and payload) returns no value, makes no
field extraction nor any other pointer access, and reports "unsupported Intel
table" with the record's type. -/
theorem foreign_record_type_unsupported (INTEL_SMBIOS : Nat) (parse_dmi_field : FieldParser)
    (dmi : dmi_header) (field : String) (htype : dmi.type ≠ INTEL_SMBIOS) :
    intel_dmi_parser_fn INTEL_SMBIOS parse_dmi_field dmi field
      = ⟨none, [Diag.unsupported_intel_table dmi.type], []⟩ := by
  simp [intel_dmi_parser_fn, htype]

/-- Claim C10 at `sample_foreign` (type 0x01), for the name `"Platform"`. -/
theorem foreign_record_type_unsupported_witness :
    intel_dmi_parser_fn 0x94 sample_parse_dmi_field sample_foreign "Platform"
      = ⟨none, [Diag.unsupported_intel_table 0x01], []⟩ :=
  foreign_record_type_unsupported 0x94 sample_parse_dmi_field sample_foreign "Platform"
    (by decide)

/-! ## Lookups in a key/value record -/

/-- The reverse-scan precedence that the key/value strategy does have: when
the key of pair `i` decodes to the requested name and every pair above it has
a key that decodes to some other text, the value byte of pair `i` is returned. -/
theorem kv_lookup_last_match (INTEL_SMBIOS : Nat) (parse_dmi_field : FieldParser)
    (dmi : dmi_header) (fieldname : String) (i : Nat)
    (htype : dmi.type = INTEL_SMBIOS) (hver : byteAt dmi 5 &&& 0xE0 = 0x20)
    (hlen : 6 < dmi.length)
    (hP : fieldname ≠ "Platform") (hV : fieldname ≠ "Version")
    (hi : i < (dmi.length - 6) / 2)
    (hkey : parse_dmi_field dmi (6 + 2 * i) 0 = some fieldname)
    (hlater : ∀ j, i < j → j < (dmi.length - 6) / 2 →
      ∃ v, parse_dmi_field dmi (6 + 2 * j) 0 = some v ∧ v ≠ fieldname) :
    (intel_dmi_parser_fn INTEL_SMBIOS parse_dmi_field dmi fieldname).value
      = parse_dmi_field dmi (7 + 2 * i) 0 := by
  rw [parser_kv_eq INTEL_SMBIOS parse_dmi_field dmi fieldname htype hver hlen hP hV]
  have h := kv_loop_returned parse_dmi_field dmi fieldname _ i [] hi hlater (Or.inr hkey)
  revert h
  generalize kv_loop parse_dmi_field dmi fieldname ((dmi.length - 6) / 2) [] = r
  rcases r with ⟨e, tr⟩
  intro h
  simp only at h
  subst h
  rfl

/-- A key/value lookup finds nothing, and says so with the one "unknown field"
diagnostic, when every key decodes to a text other than the requested name. -/
theorem kv_lookup_not_found (INTEL_SMBIOS : Nat) (parse_dmi_field : FieldParser)
    (dmi : dmi_header) (fieldname : String)
    (htype : dmi.type = INTEL_SMBIOS) (hver : byteAt dmi 5 &&& 0xE0 = 0x20)
    (hlen : 6 < dmi.length)
    (hP : fieldname ≠ "Platform") (hV : fieldname ≠ "Version")
    (hkeys : ∀ j, j < (dmi.length - 6) / 2 →
      ∃ v, parse_dmi_field dmi (6 + 2 * j) 0 = some v ∧ v ≠ fieldname) :
    (intel_dmi_parser_fn INTEL_SMBIOS parse_dmi_field dmi fieldname).value = none ∧
    (intel_dmi_parser_fn INTEL_SMBIOS parse_dmi_field dmi fieldname).log
      = [Diag.unknown_field fieldname dmi.type] := by
  rw [parser_kv_eq INTEL_SMBIOS parse_dmi_field dmi fieldname htype hver hlen hP hV]
  have h := kv_loop_finished parse_dmi_field dmi fieldname _ [] hkeys
  revert h
  generalize kv_loop parse_dmi_field dmi fieldname ((dmi.length - 6) / 2) [] = r
  rcases r with ⟨e, tr⟩
  intro h
  simp only at h
  subst h
  exact ⟨rfl, rfl⟩

/-- Claim C1, the code at a failing input.  The record `sample_kv_null_key` is a
key/value record with three pairs; the keys of pairs 0 and 1 decode to `"X"`,
the key of pair 2 does not decode.  The matching pair with the highest index
is pair 1, whose value byte (offset 9) decodes to `"b"`; the lookup of `"X"`
stops at pair 2 and returns its value byte (offset 11), `"c"`. -/
theorem kv_undecodable_key_shadows_match :
    byteAt sample_kv_null_key 5 &&& 0xE0 = 0x20 ∧
    sample_parse_dmi_field sample_kv_null_key 6 0 = some "X" ∧
    sample_parse_dmi_field sample_kv_null_key 8 0 = some "X" ∧
    sample_parse_dmi_field sample_kv_null_key 10 0 = none ∧
    sample_parse_dmi_field sample_kv_null_key 9 0 = some "b" ∧
    intel_dmi_parser_fn 0x94 sample_parse_dmi_field sample_kv_null_key "X"
      = ⟨some "c", [], [Access.field 10 0, Access.field 11 0]⟩ := by
  decide

/-- Claim C9, the code at a failing input.  The key/value record
`sample_kv_undecodable` has one pair, whose key does not decode; no key decodes
to `"X"`, yet the lookup of `"X"` returns the pair's value, `"v"`. -/
theorem kv_undecodable_key_returns_value :
    byteAt sample_kv_undecodable 5 &&& 0xE0 = 0x20 ∧
    (sample_kv_undecodable.length - 6) / 2 = 1 ∧
    sample_parse_dmi_field sample_kv_undecodable 6 0 ≠ some "X" ∧
    intel_dmi_parser_fn 0x94 sample_parse_dmi_field sample_kv_undecodable "X"
      = ⟨some "v", [], [Access.field 6 0, Access.field 7 0]⟩ := by
  decide

/-! ## Lookups in a key/type/value record -/

/-- Claim C2: in a key/type/value record, when the forward scan from offset 6
walks over `n` entries with other keys and tags in 1..4 and the next entry,
at offset `k` inside the record, has a key that decodes to the requested name
and a tag `t` in 1..4, the lookup returns the field extraction at `k + 2` with
width 1, 2, 4 for `t` = 1, 2, 3 and width 0 for `t` = 4, reports nothing, and
touches no byte after offset `k + 2`: no later entry is looked at. -/
theorem ktv_lookup_first_match (INTEL_SMBIOS : Nat) (parse_dmi_field : FieldParser)
    (dmi : dmi_header) (fieldname : String) (n k : Nat)
    (htype : dmi.type = INTEL_SMBIOS) (hver : byteAt dmi 5 &&& 0xE0 = 0x40)
    (hP : fieldname ≠ "Platform") (hV : fieldname ≠ "Version")
    (hk : ktv_entry dmi n = k) (hin : k < dmi.length)
    (hearlier : ∀ i, i < n →
      parse_dmi_field dmi (ktv_entry dmi i) 0 ≠ some fieldname ∧
      1 ≤ byteAt dmi (ktv_entry dmi i + 1) ∧ byteAt dmi (ktv_entry dmi i + 1) ≤ 4)
    (hkey : parse_dmi_field dmi k 0 = some fieldname)
    (htag : 1 ≤ byteAt dmi (k + 1) ∧ byteAt dmi (k + 1) ≤ 4) :
    (intel_dmi_parser_fn INTEL_SMBIOS parse_dmi_field dmi fieldname).value
      = parse_dmi_field dmi (k + 2)
          (if byteAt dmi (k + 1) = 1 then 1 else if byteAt dmi (k + 1) = 2 then 2
            else if byteAt dmi (k + 1) = 3 then 4 else 0) ∧
    (intel_dmi_parser_fn INTEL_SMBIOS parse_dmi_field dmi fieldname).log = [] ∧
    ∀ a ∈ (intel_dmi_parser_fn INTEL_SMBIOS parse_dmi_field dmi fieldname).trace,
      a.offset ≤ k + 2 := by
  subst hk
  have hlen : 6 < dmi.length := lt_of_le_of_lt (ktv_entry_ge dmi n) hin
  obtain ⟨tr, heq, hbound⟩ := ktv_loop_reach parse_dmi_field dmi fieldname n
    (fun i hi => lt_of_le_of_lt (ktv_entry_mono dmi (Nat.le_of_lt hi)) hin) hearlier
  rw [parser_ktv_eq INTEL_SMBIOS parse_dmi_field dmi fieldname htype hver hlen hP hV, heq,
    ktv_loop_match parse_dmi_field dmi fieldname _ tr hin hkey htag.1 htag.2]
  have hsize : (if byteAt dmi (ktv_entry dmi n + 1) ≠ 4
        then 1 <<< (byteAt dmi (ktv_entry dmi n + 1) - 1) else 0)
      = (if byteAt dmi (ktv_entry dmi n + 1) = 1 then 1
          else if byteAt dmi (ktv_entry dmi n + 1) = 2 then 2
          else if byteAt dmi (ktv_entry dmi n + 1) = 3 then 4 else 0) := by
    obtain ⟨h1, h4⟩ := htag
    generalize byteAt dmi (ktv_entry dmi n + 1) = t at h1 h4
    interval_cases t <;> rfl
  rw [hsize]
  refine ⟨rfl, rfl, ?_⟩
  intro a ha
  simp only [List.mem_append, List.mem_cons, List.mem_singleton, List.not_mem_nil,
    or_false] at ha
  rcases ha with ha | ha | ha | ha
  · have := hbound a ha; omega
  · subst ha; simp only [Access.offset]; omega
  · subst ha; simp only [Access.offset]; omega
  · subst ha; simp only [Access.offset]; omega

/-- Claim C2 at `sample_ktv_words`: entry 0 (`"A"`, Word) is walked over, entry 1
at offset 10 matches `"B"` with tag 3, and the DWord at offset 12 is returned. -/
theorem ktv_lookup_first_match_witness :
    (intel_dmi_parser_fn 0x94 sample_parse_dmi_field sample_ktv_words "B").value
      = sample_parse_dmi_field sample_ktv_words 12 4 ∧
    (intel_dmi_parser_fn 0x94 sample_parse_dmi_field sample_ktv_words "B").log = [] ∧
    ∀ a ∈ (intel_dmi_parser_fn 0x94 sample_parse_dmi_field sample_ktv_words "B").trace,
      a.offset ≤ 12 :=
  ktv_lookup_first_match 0x94 sample_parse_dmi_field sample_ktv_words "B" 1 10
    rfl (by decide) (by decide) (by decide) (by decide) (by decide)
    (by intro i hi; interval_cases i; decide) (by decide) (by decide)

/-- Claim C3: in a key/type/value record, when the forward scan from offset 6
walks over `n` entries with other keys and tags in 1..4 and the next entry, at
offset `k` inside the record, carries a tag that is 0 or greater than 4, the
lookup returns no value whether or not that entry's key matches, reports the
tag, and touches no byte after the tag at `k + 1`: the scan stops there. -/
theorem ktv_bad_tag_stops_scan (INTEL_SMBIOS : Nat) (parse_dmi_field : FieldParser)
    (dmi : dmi_header) (fieldname : String) (n k : Nat)
    (htype : dmi.type = INTEL_SMBIOS) (hver : byteAt dmi 5 &&& 0xE0 = 0x40)
    (hP : fieldname ≠ "Platform") (hV : fieldname ≠ "Version")
    (hk : ktv_entry dmi n = k) (hin : k < dmi.length)
    (hearlier : ∀ i, i < n →
      parse_dmi_field dmi (ktv_entry dmi i) 0 ≠ some fieldname ∧
      1 ≤ byteAt dmi (ktv_entry dmi i + 1) ∧ byteAt dmi (ktv_entry dmi i + 1) ≤ 4)
    (htag : byteAt dmi (k + 1) = 0 ∨ byteAt dmi (k + 1) > 4) :
    (intel_dmi_parser_fn INTEL_SMBIOS parse_dmi_field dmi fieldname).value = none ∧
    (intel_dmi_parser_fn INTEL_SMBIOS parse_dmi_field dmi fieldname).log
      = [Diag.unsupported_field_type (byteAt dmi (k + 1)),
         Diag.unknown_field fieldname dmi.type] ∧
    ∀ a ∈ (intel_dmi_parser_fn INTEL_SMBIOS parse_dmi_field dmi fieldname).trace,
      a.offset ≤ k + 1 := by
  subst hk
  have hlen : 6 < dmi.length := lt_of_le_of_lt (ktv_entry_ge dmi n) hin
  obtain ⟨tr, heq, hbound⟩ := ktv_loop_reach parse_dmi_field dmi fieldname n
    (fun i hi => lt_of_le_of_lt (ktv_entry_mono dmi (Nat.le_of_lt hi)) hin) hearlier
  rw [parser_ktv_eq INTEL_SMBIOS parse_dmi_field dmi fieldname htype hver hlen hP hV, heq,
    ktv_loop_bad_tag parse_dmi_field dmi fieldname _ tr hin htag]
  refine ⟨rfl, rfl, ?_⟩
  intro a ha
  simp only [List.mem_append, List.mem_cons, List.mem_singleton, List.not_mem_nil,
    or_false] at ha
  rcases ha with ha | ha | ha
  · have := hbound a ha; omega
  · subst ha; simp only [Access.offset]; omega
  · subst ha; simp only [Access.offset]; omega

/-- Claim C3 at its example, payload `[key "A", tag 0x1, value 0x7F, key "B",
tag 0x9]`: the lookup of `"B"` returns no value and reports tag 9. -/
theorem ktv_bad_tag_stops_scan_witness :
    sample_parse_dmi_field sample_ktv_bad_tag 9 0 = some "B" ∧
    (intel_dmi_parser_fn 0x94 sample_parse_dmi_field sample_ktv_bad_tag "B").value = none ∧
    (intel_dmi_parser_fn 0x94 sample_parse_dmi_field sample_ktv_bad_tag "B").log
      = [Diag.unsupported_field_type 9, Diag.unknown_field "B" 0x94] ∧
    ∀ a ∈ (intel_dmi_parser_fn 0x94 sample_parse_dmi_field sample_ktv_bad_tag "B").trace,
      a.offset ≤ 10 :=
  ⟨by decide,
   ktv_bad_tag_stops_scan 0x94 sample_parse_dmi_field sample_ktv_bad_tag "B" 1 9
    rfl (by decide) (by decide) (by decide) (by decide) (by decide)
    (by intro i hi; interval_cases i; decide) (by decide)⟩

/-- A key/type/value lookup finds nothing, and says so with the one "unknown
field" diagnostic, when the scan walks over `n` entries with other keys and
tags in 1..4 and thereby arrives at or past the end of the record. -/
theorem ktv_lookup_not_found (INTEL_SMBIOS : Nat) (parse_dmi_field : FieldParser)
    (dmi : dmi_header) (fieldname : String) (n : Nat)
    (htype : dmi.type = INTEL_SMBIOS) (hver : byteAt dmi 5 &&& 0xE0 = 0x40)
    (hlen : 6 < dmi.length)
    (hP : fieldname ≠ "Platform") (hV : fieldname ≠ "Version")
    (hend : dmi.length ≤ ktv_entry dmi n)
    (hentries : ∀ i, i < n → ktv_entry dmi i < dmi.length ∧
      parse_dmi_field dmi (ktv_entry dmi i) 0 ≠ some fieldname ∧
      1 ≤ byteAt dmi (ktv_entry dmi i + 1) ∧ byteAt dmi (ktv_entry dmi i + 1) ≤ 4) :
    (intel_dmi_parser_fn INTEL_SMBIOS parse_dmi_field dmi fieldname).value = none ∧
    (intel_dmi_parser_fn INTEL_SMBIOS parse_dmi_field dmi fieldname).log
      = [Diag.unknown_field fieldname dmi.type] := by
  obtain ⟨tr, heq, -⟩ := ktv_loop_reach parse_dmi_field dmi fieldname n
    (fun i hi => (hentries i hi).1) (fun i hi => (hentries i hi).2)
  rw [parser_ktv_eq INTEL_SMBIOS parse_dmi_field dmi fieldname htype hver hlen hP hV, heq,
    ktv_loop_done parse_dmi_field dmi fieldname _ tr hend]
  exact ⟨rfl, rfl⟩

/-- Claim C4, the code at a failing input.  The key/type/value record
`sample_ktv_short` has declared length 7, so offset 6 holds its only payload
byte, the key `"A"`.  The lookup of `"A"` dereferences the tag at offset 7 and
hands offset 8 with width 4 to the field extraction: both lie at or after the
declared length. -/
theorem ktv_scan_reads_past_length :
    sample_ktv_short.length = 7 ∧
    byteAt sample_ktv_short 5 &&& 0xE0 = 0x40 ∧
    (intel_dmi_parser_fn 0x94 sample_parse_dmi_field sample_ktv_short "A").trace
      = [Access.field 6 0, Access.byte 7, Access.field 8 4] ∧
    ¬ ∀ a ∈ (intel_dmi_parser_fn 0x94 sample_parse_dmi_field sample_ktv_short "A").trace,
        a.offset < sample_ktv_short.length := by
  have htr : (intel_dmi_parser_fn 0x94 sample_parse_dmi_field sample_ktv_short "A").trace
      = [Access.field 6 0, Access.byte 7, Access.field 8 4] := by
    rw [parser_ktv_eq 0x94 sample_parse_dmi_field sample_ktv_short "A" rfl (by decide)
      (by decide) (by decide) (by decide),
      ktv_loop_match sample_parse_dmi_field sample_ktv_short "A" _ [] (by decide) (by decide)
        (by decide) (by decide)]
    decide
  refine ⟨rfl, by decide, htr, ?_⟩
  rw [htr]
  decide

/-! ## Bytes and their top three bits -/

set_option maxRecDepth 100000 in
/-- The top three bits of a byte form one of the three known classes or a
greater pattern. -/
theorem land_top_bits_cases : ∀ x, x < 256 →
    (x &&& 0xE0 = 0 ∨ x &&& 0xE0 = 0x20 ∨ x &&& 0xE0 = 0x40 ∨ x &&& 0xE0 > 0x40) := by
  decide

set_option maxRecDepth 100000 in
/-- The top three bits of a byte are clear exactly when the byte is below 0x20. -/
theorem land_top_bits_zero_iff : ∀ x, x < 256 → (x &&& 0xE0 = 0 ↔ x < 0x20) := by
  decide

/-! ## Traces of the two scans -/

/-- A byte of the record is below 256. -/
theorem byteAt_lt (dmi : dmi_header) (off : Nat) : byteAt dmi off < 256 :=
  Nat.mod_lt _ (by decide)

/-- One iteration of the forward scan: the loop is left at the end boundary,
or it examines the entry at `o` (key extraction, tag dereference) and then
stops on the tag, returns after one more extraction, or goes on at least three
bytes further. -/
theorem ktv_loop_cases (pdf : FieldParser) (dmi : dmi_header) (name : String)
    (o : Nat) (tr : List Access) :
    (dmi.length ≤ o ∧ ktv_loop pdf dmi name o tr = (LoopExit.finished, tr)) ∨
    (o < dmi.length ∧ ∃ t, ktv_loop pdf dmi name o tr
        = (LoopExit.bad_tag t, tr ++ [Access.field o 0, Access.byte (o + 1)])) ∨
    (o < dmi.length ∧ ∃ v s, ktv_loop pdf dmi name o tr
        = (LoopExit.returned v,
            tr ++ [Access.field o 0, Access.byte (o + 1), Access.field (o + 2) s])) ∨
    (o < dmi.length ∧ o + 2 < ktv_next dmi o ∧ ktv_loop pdf dmi name o tr
        = ktv_loop pdf dmi name (ktv_next dmi o)
            (tr ++ [Access.field o 0, Access.byte (o + 1)])) := by
  rcases Nat.lt_or_ge o dmi.length with hin | hout
  · right
    by_cases hbad : byteAt dmi (o + 1) = 0 ∨ byteAt dmi (o + 1) > 4
    · exact Or.inl ⟨hin, _, ktv_loop_bad_tag pdf dmi name o tr hin hbad⟩
    · have h1 : 1 ≤ byteAt dmi (o + 1) := by omega
      have h4 : byteAt dmi (o + 1) ≤ 4 := by omega
      by_cases hkey : pdf dmi o 0 = some name
      · exact Or.inr (Or.inl ⟨hin, _, _, ktv_loop_match pdf dmi name o tr hin hkey h1 h4⟩)
      · exact Or.inr (Or.inr ⟨hin, ktv_next_gt dmi o,
          ktv_loop_skip pdf dmi name o tr hin hkey h1 h4⟩)
  · exact Or.inl ⟨hout, ktv_loop_done pdf dmi name o tr hout⟩

/-- Appending the accesses of one examined entry adds one tag read. -/
theorem tag_reads_entry (tr : List Access) (o : Nat) :
    tag_reads (tr ++ [Access.field o 0, Access.byte (o + 1)]) = tag_reads tr + 1 := by
  simp [tag_reads, List.countP_append, List.countP_cons, Access.isByte]

/-- Appending the accesses of a returned entry adds one tag read. -/
theorem tag_reads_returned (tr : List Access) (o s : Nat) :
    tag_reads (tr ++ [Access.field o 0, Access.byte (o + 1), Access.field (o + 2) s])
      = tag_reads tr + 1 := by
  simp [tag_reads, List.countP_append, List.countP_cons, Access.isByte]

/-- The forward scan started at `o` examines at most a third (rounded up) as
many entries as there are bytes from `o` to the end boundary. -/
theorem ktv_loop_tag_reads_le (pdf : FieldParser) (dmi : dmi_header) (name : String)
    (d : Nat) : ∀ o tr, dmi.length - o ≤ d →
      tag_reads (ktv_loop pdf dmi name o tr).2 ≤ tag_reads tr + (dmi.length - o + 2) / 3 := by
  induction d with
  | zero =>
    intro o tr hd
    rw [ktv_loop_done pdf dmi name o tr (by omega)]
    exact Nat.le_add_right _ _
  | succ d ih =>
    intro o tr hd
    rcases ktv_loop_cases pdf dmi name o tr with ⟨_, h⟩ | ⟨hin, t, h⟩ | ⟨hin, v, s, h⟩ |
      ⟨hin, hgt, h⟩
    · rw [h]; exact Nat.le_add_right _ _
    · rw [h]; simp only [tag_reads_entry]; omega
    · rw [h]; simp only [tag_reads_returned]; omega
    · rw [h]
      have := ih (ktv_next dmi o) (tr ++ [Access.field o 0, Access.byte (o + 1)]) (by omega)
      rw [tag_reads_entry] at this
      omega

/-- The forward scan started at `o` touches nothing before `o`. -/
theorem ktv_loop_trace_ge (pdf : FieldParser) (dmi : dmi_header) (name : String)
    (d : Nat) : ∀ o tr, dmi.length - o ≤ d →
      ∀ a ∈ (ktv_loop pdf dmi name o tr).2, a ∈ tr ∨ o ≤ a.offset := by
  induction d with
  | zero =>
    intro o tr hd a ha
    rw [ktv_loop_done pdf dmi name o tr (by omega)] at ha
    exact Or.inl ha
  | succ d ih =>
    intro o tr hd a ha
    rcases ktv_loop_cases pdf dmi name o tr with ⟨_, h⟩ | ⟨hin, t, h⟩ | ⟨hin, v, s, h⟩ |
      ⟨hin, hgt, h⟩
    · rw [h] at ha; exact Or.inl ha
    · rw [h] at ha
      simp only [List.mem_append, List.mem_cons, List.mem_singleton, List.not_mem_nil,
        or_false] at ha
      rcases ha with ha | ha | ha
      · exact Or.inl ha
      · subst ha; right; simp only [Access.offset]; omega
      · subst ha; right; simp only [Access.offset]; omega
    · rw [h] at ha
      simp only [List.mem_append, List.mem_cons, List.mem_singleton, List.not_mem_nil,
        or_false] at ha
      rcases ha with ha | ha | ha | ha
      · exact Or.inl ha
      · subst ha; right; simp only [Access.offset]; omega
      · subst ha; right; simp only [Access.offset]; omega
      · subst ha; right; simp only [Access.offset]; omega
    · rw [h] at ha
      rcases ih (ktv_next dmi o) _ (by omega) a ha with h1 | h1
      · simp only [List.mem_append, List.mem_cons, List.mem_singleton, List.not_mem_nil,
          or_false] at h1
        rcases h1 with h1 | h1 | h1
        · exact Or.inl h1
        · subst h1; right; simp only [Access.offset]; omega
        · subst h1; right; simp only [Access.offset]; omega
      · right; omega

/-- The reverse scan over `n` pairs hands to the field extraction only key
offsets `6 + 2 * i` and value offsets `7 + 2 * i` with `i < n`, with width 0. -/
theorem kv_loop_trace (pdf : FieldParser) (dmi : dmi_header) (name : String) (n : Nat) :
    ∀ tr, ∀ a ∈ (kv_loop pdf dmi name n tr).2,
      a ∈ tr ∨ ∃ i, i < n ∧ (a = Access.field (6 + 2 * i) 0 ∨ a = Access.field (7 + 2 * i) 0) := by
  induction n with
  | zero => intro tr a ha; exact Or.inl ha
  | succ n ih =>
    intro tr a ha
    have hoff : sizeof_platform_header + (n <<< 1) = 6 + 2 * n := by
      simp only [sizeof_platform_header, sizeof_dmi_header, Nat.shiftLeft_eq]; omega
    simp only [kv_loop, hoff] at ha
    split at ha
    · rcases ih _ a ha with h | ⟨i, hi, h⟩
      · simp only [List.mem_append, List.mem_singleton] at h
        rcases h with h | h
        · exact Or.inl h
        · exact Or.inr ⟨n, by omega, Or.inl h⟩
      · exact Or.inr ⟨i, by omega, h⟩
    · simp only [List.mem_append, List.mem_singleton] at ha
      rcases ha with (ha | ha) | ha
      · exact Or.inl ha
      · exact Or.inr ⟨n, by omega, Or.inl ha⟩
      · exact Or.inr ⟨n, by omega, Or.inr (by rw [ha]; congr 1; omega)⟩

/-- The trace of a key/value lookup is the trace of the reverse scan. -/
theorem parser_kv_trace (INTEL_SMBIOS : Nat) (pdf : FieldParser) (dmi : dmi_header)
    (name : String) (htype : dmi.type = INTEL_SMBIOS)
    (hver : byteAt dmi 5 &&& 0xE0 = 0x20) (hlen : 6 < dmi.length)
    (hP : name ≠ "Platform") (hV : name ≠ "Version") :
    (intel_dmi_parser_fn INTEL_SMBIOS pdf dmi name).trace
      = (kv_loop pdf dmi name ((dmi.length - 6) / 2) []).2 := by
  rw [parser_kv_eq INTEL_SMBIOS pdf dmi name htype hver hlen hP hV]
  generalize kv_loop pdf dmi name ((dmi.length - 6) / 2) [] = r
  rcases r with ⟨e, tr⟩
  cases e <;> rfl

/-- The trace of a key/type/value lookup is the trace of the forward scan. -/
theorem parser_ktv_trace (INTEL_SMBIOS : Nat) (pdf : FieldParser) (dmi : dmi_header)
    (name : String) (htype : dmi.type = INTEL_SMBIOS)
    (hver : byteAt dmi 5 &&& 0xE0 = 0x40) (hlen : 6 < dmi.length)
    (hP : name ≠ "Platform") (hV : name ≠ "Version") :
    (intel_dmi_parser_fn INTEL_SMBIOS pdf dmi name).trace
      = (ktv_loop pdf dmi name sizeof_platform_header []).2 := by
  rw [parser_ktv_eq INTEL_SMBIOS pdf dmi name htype hver hlen hP hV]
  generalize ktv_loop pdf dmi name sizeof_platform_header [] = r
  rcases r with ⟨e, tr⟩
  cases e <;> rfl

/-- A lookup in a record of a key-based class that is answered without a scan
(the names `"Platform"` and `"Version"`, or a record without payload) reads no
type tag and, for any other name, touches nothing. -/
theorem parser_keyed_no_scan (INTEL_SMBIOS : Nat) (pdf : FieldParser) (dmi : dmi_header)
    (name : String) (htype : dmi.type = INTEL_SMBIOS)
    (hver : byteAt dmi 5 &&& 0xE0 = 0x20 ∨ byteAt dmi 5 &&& 0xE0 = 0x40)
    (hno : name = "Platform" ∨ name = "Version" ∨ dmi.length ≤ 6) :
    tag_reads (intel_dmi_parser_fn INTEL_SMBIOS pdf dmi name).trace = 0 ∧
    (name ≠ "Platform" → name ≠ "Version" →
      (intel_dmi_parser_fn INTEL_SMBIOS pdf dmi name).trace = []) := by
  have hleg := not_legacy_of_keyed hver
  have hle : ¬ (byteAt dmi 5 &&& 0xE0 > 0x40) := by omega
  simp only [intel_dmi_parser_fn, htype, offsetof_Version, offsetof_Platform,
    sizeof_dmi_header, hleg, intel_parse_kv_table, FORMAT_FIELD_MASK, FORMAT_KTV_TABLE,
    sizeof_platform_header]
  by_cases hP : name = "Platform"
  · subst hP; simp [hle, tag_reads, Access.isByte]
  · by_cases hV : name = "Version"
    · subst hV; simp [hle, tag_reads, Access.isByte]
    · have hlen : dmi.length ≤ 6 := by
        rcases hno with h | h | h
        · exact absurd h hP
        · exact absurd h hV
        · exact h
      simp [hle, hP, hV, hlen, tag_reads]

/-! ## The cursor of the forward scan -/

/-- Claim C11 as stated, refuted on `sample_ktv_inline_string`: the String entry
`"A"` at offset 6 is followed by the three-byte inline text `h`, `i`, NUL and
then, at offset 11, by the entry `"B"` with tag 1.  The scan moves from 6 to 9,
not to 11: it decodes the byte `i` as a key, reads the NUL at offset 10 as a
type tag and stops; the lookup of `"B"` returns no value. -/
theorem ktv_inline_string_hides_next_entry :
    byteAt sample_ktv_inline_string 7 = FIELD_TYPE_STRING ∧
    (byteAt sample_ktv_inline_string 8, byteAt sample_ktv_inline_string 9,
      byteAt sample_ktv_inline_string 10) = (0x68, 0x69, 0) ∧
    sample_parse_dmi_field sample_ktv_inline_string 11 0 = some "B" ∧
    byteAt sample_ktv_inline_string 12 = FIELD_TYPE_BYTE ∧
    ktv_next sample_ktv_inline_string 6 = 9 ∧
    intel_dmi_parser_fn 0x94 sample_parse_dmi_field sample_ktv_inline_string "B"
      = ⟨none, [Diag.unsupported_field_type 0, Diag.unknown_field "B" 0x94],
          [Access.field 6 0, Access.byte 7, Access.field 9 0, Access.byte 10]⟩ := by
  refine ⟨by decide, by decide, by decide, by decide, by decide, ?_⟩
  rw [parser_ktv_eq 0x94 sample_parse_dmi_field sample_ktv_inline_string "B" rfl (by decide)
      (by decide) (by decide) (by decide),
    ktv_loop_skip sample_parse_dmi_field sample_ktv_inline_string "B" _ [] (by decide)
      (by decide) (by decide) (by decide),
    ktv_loop_bad_tag sample_parse_dmi_field sample_ktv_inline_string "B" _ _ (by decide)
      (by decide)]
  decide

/-- Claim C11, amended: in the forward scan an entry at offset `k` inside the
record whose key does not match and whose tag `t` is in 1..4 moves the cursor
to `k + 1 + 1 + width`, where the width is `1 << (t - 1)` (1, 2, 4) for the
tags 1, 2, 3 and one byte for the String tag 4; an entry that starts there with
a matching key and a tag in 1..4 is found: its value at two bytes past its key
is returned with the width of its own tag. -/
theorem ktv_skip_advances_by_tag_width (parse_dmi_field : FieldParser) (dmi : dmi_header)
    (fieldname : String) (k : Nat) (trace : List Access)
    (hin : k < dmi.length)
    (hkey : parse_dmi_field dmi k 0 ≠ some fieldname)
    (htag : 1 ≤ byteAt dmi (k + 1) ∧ byteAt dmi (k + 1) ≤ 4) :
    ktv_loop parse_dmi_field dmi fieldname k trace
      = ktv_loop parse_dmi_field dmi fieldname
          (k + 1 + 1 + (if byteAt dmi (k + 1) = 4 then 1 else 1 <<< (byteAt dmi (k + 1) - 1)))
          (trace ++ [Access.field k 0, Access.byte (k + 1)]) ∧
    (if byteAt dmi (k + 1) = 4 then 1 else 1 <<< (byteAt dmi (k + 1) - 1))
      = (if byteAt dmi (k + 1) = 1 then 1 else if byteAt dmi (k + 1) = 2 then 2
          else if byteAt dmi (k + 1) = 3 then 4 else 1) ∧
    ∀ k2, k2 = k + 1 + 1 +
        (if byteAt dmi (k + 1) = 4 then 1 else 1 <<< (byteAt dmi (k + 1) - 1)) →
      k2 < dmi.length → parse_dmi_field dmi k2 0 = some fieldname →
      1 ≤ byteAt dmi (k2 + 1) ∧ byteAt dmi (k2 + 1) ≤ 4 →
      (ktv_loop parse_dmi_field dmi fieldname k trace).1
        = LoopExit.returned (parse_dmi_field dmi (k2 + 2)
            (if byteAt dmi (k2 + 1) ≠ 4 then 1 <<< (byteAt dmi (k2 + 1) - 1) else 0)) := by
  have hstep : ktv_loop parse_dmi_field dmi fieldname k trace
      = ktv_loop parse_dmi_field dmi fieldname
          (k + 1 + 1 + (if byteAt dmi (k + 1) = 4 then 1 else 1 <<< (byteAt dmi (k + 1) - 1)))
          (trace ++ [Access.field k 0, Access.byte (k + 1)]) := by
    rw [ktv_loop_skip parse_dmi_field dmi fieldname k trace hin hkey htag.1 htag.2]
    have hnext : ktv_next dmi k
        = k + 1 + 1 + (if byteAt dmi (k + 1) = 4 then 1 else 1 <<< (byteAt dmi (k + 1) - 1)) := by
      simp only [ktv_next, FIELD_TYPE_STRING]; omega
    rw [hnext]
  refine ⟨hstep, ?_, ?_⟩
  · obtain ⟨h1, h4⟩ := htag
    generalize byteAt dmi (k + 1) = t at h1 h4
    interval_cases t <;> rfl
  · intro k2 hk2 hin2 hkey2 htag2
    rw [hstep, ← hk2,
      ktv_loop_match parse_dmi_field dmi fieldname k2 _ hin2 hkey2 htag2.1 htag2.2]

/-- Claim C11, amended, at `sample_ktv_string_ref`: the String entry `"A"` at
offset 6 has a one-byte value, the cursor moves to 9 and the entry `"B"` there
is found. -/
theorem ktv_skip_advances_by_tag_width_witness :
    ktv_loop sample_parse_dmi_field sample_ktv_string_ref "B" 6 []
      = ktv_loop sample_parse_dmi_field sample_ktv_string_ref "B" 9
          [Access.field 6 0, Access.byte 7] ∧
    (ktv_loop sample_parse_dmi_field sample_ktv_string_ref "B" 6 []).1
      = LoopExit.returned (sample_parse_dmi_field sample_ktv_string_ref 11 1) :=
  have h := ktv_skip_advances_by_tag_width sample_parse_dmi_field sample_ktv_string_ref "B" 6 []
    (by decide) (by decide) (by decide)
  ⟨h.1, h.2.2 9 (by decide) (by decide) (by decide) (by decide)⟩

/-! ## Records shorter than the platform header -/

/-- Claim C12 as stated, refuted on `sample_truncated`, a key/value record of
declared length 4: the lookups of `"Platform"` and `"Version"` are no errors,
they return the field extraction at offsets 4 and 5, both at or after the
declared length. -/
theorem truncated_record_still_decodes_header :
    sample_truncated.length = 4 ∧
    byteAt sample_truncated 5 &&& 0xE0 = 0x20 ∧
    intel_dmi_parser_fn 0x94 sample_parse_dmi_field sample_truncated "Platform"
      = ⟨some "P", [], [Access.field 4 0]⟩ ∧
    intel_dmi_parser_fn 0x94 sample_parse_dmi_field sample_truncated "Version"
      = ⟨some "# ", [], [Access.field 5 1]⟩ := by
  decide

/-- Claim C12, amended: a record of type `INTEL_SMBIOS` whose declared length
is smaller than 6 is still classified from `hdr->Version`, the byte at offset
5, which lines 188 and 108 load before the only length test (line 122)
although it lies at or after the declared length.  When that byte gives the
class key/value or key/type/value, the lookup of every field name other than
`"Platform"` and `"Version"` returns no value, calls no field extraction,
dereferences no scanning pointer and reports the length, and the lookups of
`"Platform"` and `"Version"` return the field extraction at offsets 4 and 5.
The outcome depends on the byte outside the record: with the same type, length
and other bytes, but top bits above 0x40 at offset 5, every lookup returns no
value and reports the unsupported version instead. -/
theorem short_record_lookups (INTEL_SMBIOS : Nat) (parse_dmi_field : FieldParser)
    (dmi : dmi_header) (htype : dmi.type = INTEL_SMBIOS)
    (hver : byteAt dmi 5 &&& 0xE0 = 0x20 ∨ byteAt dmi 5 &&& 0xE0 = 0x40)
    (hlen : dmi.length < 6) :
    dmi.length ≤ offsetof_Version ∧
    (∀ fieldname : String, fieldname ≠ "Platform" → fieldname ≠ "Version" →
      intel_dmi_parser_fn INTEL_SMBIOS parse_dmi_field dmi fieldname
        = ⟨none, [Diag.no_fields_defined dmi.length,
            Diag.unknown_field fieldname dmi.type], []⟩) ∧
    intel_dmi_parser_fn INTEL_SMBIOS parse_dmi_field dmi "Platform"
        = ⟨parse_dmi_field dmi 4 0, [], [Access.field 4 0]⟩ ∧
    intel_dmi_parser_fn INTEL_SMBIOS parse_dmi_field dmi "Version"
        = ⟨parse_dmi_field dmi 5 1, [], [Access.field 5 1]⟩ ∧
    (∀ (v : Nat) (fieldname : String), v % 256 &&& 0xE0 > 0x40 →
      intel_dmi_parser_fn INTEL_SMBIOS parse_dmi_field (with_byte dmi offsetof_Version v)
          fieldname
        = ⟨none, [Diag.unsupported_table_version (v % 256)], []⟩ ∧
      intel_dmi_parser_fn INTEL_SMBIOS parse_dmi_field (with_byte dmi offsetof_Version v)
          fieldname
        ≠ intel_dmi_parser_fn INTEL_SMBIOS parse_dmi_field dmi fieldname) := by
  have hleg := not_legacy_of_keyed hver
  have hle : ¬ (byteAt dmi 5 &&& 0xE0 > 0x40) := by omega
  have hlen6 : dmi.length ≤ 6 := by omega
  have hother : ∀ fieldname : String, fieldname ≠ "Platform" → fieldname ≠ "Version" →
      intel_dmi_parser_fn INTEL_SMBIOS parse_dmi_field dmi fieldname
        = ⟨none, [Diag.no_fields_defined dmi.length,
            Diag.unknown_field fieldname dmi.type], []⟩ := by
    intro fieldname hP hV
    simp only [intel_dmi_parser_fn, htype, offsetof_Version, offsetof_Platform,
      sizeof_dmi_header, hleg, intel_parse_kv_table, FORMAT_FIELD_MASK, FORMAT_KTV_TABLE,
      sizeof_platform_header]
    simp [hle, hP, hV, hlen6]
  have hplat : intel_dmi_parser_fn INTEL_SMBIOS parse_dmi_field dmi "Platform"
      = ⟨parse_dmi_field dmi 4 0, [], [Access.field 4 0]⟩ := by
    simp only [intel_dmi_parser_fn, htype, offsetof_Version, offsetof_Platform,
      sizeof_dmi_header, hleg, intel_parse_kv_table, FORMAT_FIELD_MASK, FORMAT_KTV_TABLE]
    simp [hle]
  have hvers : intel_dmi_parser_fn INTEL_SMBIOS parse_dmi_field dmi "Version"
      = ⟨parse_dmi_field dmi 5 1, [], [Access.field 5 1]⟩ := by
    simp only [intel_dmi_parser_fn, htype, offsetof_Version, offsetof_Platform,
      sizeof_dmi_header, hleg, intel_parse_kv_table, FORMAT_FIELD_MASK, FORMAT_KTV_TABLE]
    simp [hle]
  refine ⟨?_, hother, hplat, hvers, ?_⟩
  · simp only [offsetof_Version, sizeof_dmi_header]; omega
  · intro v fieldname hv
    have h5 : offsetof_Version = 5 := rfl
    rw [h5]
    have hbyte : byteAt (with_byte dmi 5 v) 5 = v % 256 := by
      simp [byteAt, with_byte]
    have htype2 : (with_byte dmi 5 v).type = INTEL_SMBIOS := htype
    have hleg2 : is_legacy_table (v % 256) = false := by
      simp only [is_legacy_table, FORMAT_FIELD_MASK, FORMAT_FIXED_TABLE, beq_eq_false_iff_ne]
      omega
    have hout : intel_dmi_parser_fn INTEL_SMBIOS parse_dmi_field (with_byte dmi 5 v) fieldname
        = ⟨none, [Diag.unsupported_table_version (v % 256)], []⟩ := by
      simp only [intel_dmi_parser_fn, htype2, offsetof_Version, sizeof_dmi_header,
        intel_parse_kv_table, FORMAT_FIELD_MASK, FORMAT_KTV_TABLE, hbyte]
      simp [hleg2, hv]
    refine ⟨hout, ?_⟩
    rw [hout]
    by_cases hP : fieldname = "Platform"
    · subst hP; rw [hplat]; simp
    · by_cases hV : fieldname = "Version"
      · subst hV; rw [hvers]; simp
      · rw [hother fieldname hP hV]; simp

/-- Claim C12, amended, at `sample_truncated` (declared length 4, the version
byte 0x20 at offset 5 lies after the record): the lookups on the record as it
is, and the lookup of `"Platform"` once the byte at offset 5 is 0xE0. -/
theorem short_record_lookups_witness :
    sample_truncated.length ≤ offsetof_Version ∧
    intel_dmi_parser_fn 0x94 sample_parse_dmi_field sample_truncated "A"
      = ⟨none, [Diag.no_fields_defined 4, Diag.unknown_field "A" 0x94], []⟩ ∧
    intel_dmi_parser_fn 0x94 sample_parse_dmi_field sample_truncated "Platform"
      = ⟨sample_parse_dmi_field sample_truncated 4 0, [], [Access.field 4 0]⟩ ∧
    intel_dmi_parser_fn 0x94 sample_parse_dmi_field sample_truncated "Version"
      = ⟨sample_parse_dmi_field sample_truncated 5 1, [], [Access.field 5 1]⟩ ∧
    intel_dmi_parser_fn 0x94 sample_parse_dmi_field
        (with_byte sample_truncated offsetof_Version 0xE0) "Platform"
      = ⟨none, [Diag.unsupported_table_version 0xE0], []⟩ :=
  have h := short_record_lookups 0x94 sample_parse_dmi_field sample_truncated rfl
    (Or.inl (by decide)) (by decide)
  ⟨h.1, h.2.1 "A" (by decide) (by decide), h.2.2.1, h.2.2.2.1,
    (h.2.2.2.2 0xE0 "Platform" (by decide)).1⟩

/-! ## A bad type tag behind a matching entry -/

/-- Claim C13 as stated, refuted on `sample_ktv_bad_tag`: the record contains an
entry with tag 9 (at offset 9), yet the lookup of `"A"`, the key of the earlier
entry with the valid tag 1, returns that entry's value and reports nothing. -/
theorem ktv_match_before_bad_tag_returns :
    byteAt sample_ktv_bad_tag 10 = 9 ∧
    sample_parse_dmi_field sample_ktv_bad_tag 8 1 ≠ none ∧
    intel_dmi_parser_fn 0x94 sample_parse_dmi_field sample_ktv_bad_tag "A"
      = ⟨sample_parse_dmi_field sample_ktv_bad_tag 8 1, [],
          [Access.field 6 0, Access.byte 7, Access.field 8 1]⟩ := by
  refine ⟨by decide, by decide, ?_⟩
  rw [parser_ktv_eq 0x94 sample_parse_dmi_field sample_ktv_bad_tag "A" rfl (by decide)
      (by decide) (by decide) (by decide),
    ktv_loop_match sample_parse_dmi_field sample_ktv_bad_tag "A" _ [] (by decide)
      (by decide) (by decide) (by decide)]
  decide

/-- Claim C13, amended: in a key/type/value record whose `n`-th entry, at
offset `k` inside the record, carries a tag that is 0 or greater than 4 (all
earlier tags being in 1..4), the lookup halts at that entry and returns no
value when no earlier key matches the requested name; when an earlier entry
does match, the first such entry is returned with the width of its tag and
nothing after its value offset, the bad entry included, is examined. -/
theorem ktv_bad_tag_reached_only_without_match (INTEL_SMBIOS : Nat)
    (parse_dmi_field : FieldParser) (dmi : dmi_header) (fieldname : String) (n k : Nat)
    (htype : dmi.type = INTEL_SMBIOS) (hver : byteAt dmi 5 &&& 0xE0 = 0x40)
    (hP : fieldname ≠ "Platform") (hV : fieldname ≠ "Version")
    (hk : ktv_entry dmi n = k) (hin : k < dmi.length)
    (hvalid : ∀ i, i < n →
      1 ≤ byteAt dmi (ktv_entry dmi i + 1) ∧ byteAt dmi (ktv_entry dmi i + 1) ≤ 4)
    (hbad : byteAt dmi (k + 1) = 0 ∨ byteAt dmi (k + 1) > 4) :
    ((∀ i, i < n → parse_dmi_field dmi (ktv_entry dmi i) 0 ≠ some fieldname) →
      (intel_dmi_parser_fn INTEL_SMBIOS parse_dmi_field dmi fieldname).value = none ∧
      (intel_dmi_parser_fn INTEL_SMBIOS parse_dmi_field dmi fieldname).log
        = [Diag.unsupported_field_type (byteAt dmi (k + 1)),
           Diag.unknown_field fieldname dmi.type]) ∧
    (∀ m, m < n → parse_dmi_field dmi (ktv_entry dmi m) 0 = some fieldname →
      (∀ i, i < m → parse_dmi_field dmi (ktv_entry dmi i) 0 ≠ some fieldname) →
      (intel_dmi_parser_fn INTEL_SMBIOS parse_dmi_field dmi fieldname).value
        = parse_dmi_field dmi (ktv_entry dmi m + 2)
            (if byteAt dmi (ktv_entry dmi m + 1) ≠ 4
              then 1 <<< (byteAt dmi (ktv_entry dmi m + 1) - 1) else 0) ∧
      (intel_dmi_parser_fn INTEL_SMBIOS parse_dmi_field dmi fieldname).log = [] ∧
      ∀ a ∈ (intel_dmi_parser_fn INTEL_SMBIOS parse_dmi_field dmi fieldname).trace,
        a.offset < k) := by
  subst hk
  have hlen : 6 < dmi.length := lt_of_le_of_lt (ktv_entry_ge dmi n) hin
  have hinside : ∀ i, i ≤ n → ktv_entry dmi i < dmi.length :=
    fun i hi => lt_of_le_of_lt (ktv_entry_mono dmi hi) hin
  rw [parser_ktv_eq INTEL_SMBIOS parse_dmi_field dmi fieldname htype hver hlen hP hV]
  constructor
  · intro hkeys
    obtain ⟨tr, heq, -⟩ := ktv_loop_reach parse_dmi_field dmi fieldname n
      (fun i hi => hinside i (Nat.le_of_lt hi)) (fun i hi => ⟨hkeys i hi, hvalid i hi⟩)
    rw [heq, ktv_loop_bad_tag parse_dmi_field dmi fieldname _ tr hin hbad]
    exact ⟨rfl, rfl⟩
  · intro m hm hkey hkeys
    obtain ⟨tr, heq, hbound⟩ := ktv_loop_reach parse_dmi_field dmi fieldname m
      (fun i hi => hinside i (by omega))
      (fun i hi => ⟨hkeys i hi, hvalid i (by omega)⟩)
    rw [heq, ktv_loop_match parse_dmi_field dmi fieldname _ tr (hinside m (Nat.le_of_lt hm))
      hkey (hvalid m hm).1 (hvalid m hm).2]
    refine ⟨rfl, rfl, ?_⟩
    intro a ha
    have hnext : ktv_entry dmi m + 2 < ktv_entry dmi (m + 1) := ktv_next_gt dmi _
    have hle : ktv_entry dmi (m + 1) ≤ ktv_entry dmi n := ktv_entry_mono dmi hm
    simp only [List.mem_append, List.mem_cons, List.mem_singleton, List.not_mem_nil,
      or_false] at ha
    rcases ha with ha | ha | ha | ha
    · have := hbound a ha; omega
    · subst ha; simp only [Access.offset]; omega
    · subst ha; simp only [Access.offset]; omega
    · subst ha; simp only [Access.offset]; omega

/-- Claim C13, amended, at `sample_ktv_bad_tag` (entry 1, at offset 9, has tag
9): the lookup of `"B"` stops at the bad tag, the lookup of `"A"` returns the
value of entry 0. -/
theorem ktv_bad_tag_reached_only_without_match_witness :
    ((intel_dmi_parser_fn 0x94 sample_parse_dmi_field sample_ktv_bad_tag "B").value = none ∧
      (intel_dmi_parser_fn 0x94 sample_parse_dmi_field sample_ktv_bad_tag "B").log
        = [Diag.unsupported_field_type 9, Diag.unknown_field "B" 0x94]) ∧
    (intel_dmi_parser_fn 0x94 sample_parse_dmi_field sample_ktv_bad_tag "A").value
      = sample_parse_dmi_field sample_ktv_bad_tag 8 1 :=
  ⟨(ktv_bad_tag_reached_only_without_match 0x94 sample_parse_dmi_field sample_ktv_bad_tag
      "B" 1 9 rfl (by decide) (by decide) (by decide) (by decide) (by decide)
      (by intro i hi; interval_cases i; decide) (by decide)).1
      (by intro i hi; interval_cases i; decide),
   ((ktv_bad_tag_reached_only_without_match 0x94 sample_parse_dmi_field sample_ktv_bad_tag
      "A" 1 9 rfl (by decide) (by decide) (by decide) (by decide) (by decide)
      (by intro i hi; interval_cases i; decide) (by decide)).2 0 (by decide) (by decide)
      (by intro i hi; omega)).1⟩

/-! ## The key/value example of the specification -/

/-- Claim C14 as stated, refuted on `sample_kv_example_len6`: with the declared
length 6 the four bytes `[0x01, 0x10, 0x01, 0x20]` lie after the record, the
table has no pairs, and the lookup of `"1"` returns no value without decoding
any byte. -/
theorem kv_example_length_six_has_no_pairs :
    sample_kv_example_len6.length = 6 ∧
    byteAt sample_kv_example_len6 5 &&& 0xE0 = 0x20 ∧
    sample_decimal_field sample_kv_example_len6 6 0 = some "1" ∧
    sample_decimal_field sample_kv_example_len6 8 0 = some "1" ∧
    intel_dmi_parser_fn 0x94 sample_decimal_field sample_kv_example_len6 "1"
      = ⟨none, [Diag.no_fields_defined 6, Diag.unknown_field "1" 0x94], []⟩ := by
  decide

/-- Claim C14, amended: for the key/value record with declared length 10 (the
6-byte platform header and the payload `[0x01, 0x10, 0x01, 0x20]`) whose two
key bytes both decode to `"1"`, the lookup of `"1"` returns the value decoded
at offset 9, the byte 0x20 of the second pair; the first pair is not looked at. -/
theorem kv_example_second_pair_wins (INTEL_SMBIOS : Nat) (parse_dmi_field : FieldParser)
    (dmi : dmi_header) (htype : dmi.type = INTEL_SMBIOS)
    (hver : byteAt dmi 5 &&& 0xE0 = 0x20) (hlen : dmi.length = 10)
    (hpayload : (byteAt dmi 6, byteAt dmi 7, byteAt dmi 8, byteAt dmi 9)
      = (0x01, 0x10, 0x01, 0x20))
    (_hkey0 : parse_dmi_field dmi 6 0 = some "1")
    (hkey1 : parse_dmi_field dmi 8 0 = some "1") :
    intel_dmi_parser_fn INTEL_SMBIOS parse_dmi_field dmi "1"
      = ⟨parse_dmi_field dmi 9 0, [], [Access.field 8 0, Access.field 9 0]⟩ ∧
    byteAt dmi 9 = 0x20 := by
  constructor
  · rw [parser_kv_eq INTEL_SMBIOS parse_dmi_field dmi "1" htype hver (by omega) (by decide)
      (by decide), hlen]
    simp [kv_loop, sizeof_platform_header, sizeof_dmi_header, hkey1]
  · simp only [Prod.mk.injEq] at hpayload
    exact hpayload.2.2.2

/-- Claim C14, amended, at `sample_kv_example_len10` with the decimal decoder:
the lookup of `"1"` returns `"32"`, the text of byte 0x20. -/
theorem kv_example_second_pair_wins_witness :
    intel_dmi_parser_fn 0x94 sample_decimal_field sample_kv_example_len10 "1"
      = ⟨sample_decimal_field sample_kv_example_len10 9 0, [],
          [Access.field 8 0, Access.field 9 0]⟩ ∧
    byteAt sample_kv_example_len10 9 = 0x20 :=
  kv_example_second_pair_wins 0x94 sample_decimal_field sample_kv_example_len10 rfl
    (by decide) rfl (by decide) (by decide) (by decide)

/-! ## What is reported to the diagnostic sink -/

/-- Claim C15 as stated, refuted on `sample_kv_pairs`: the keys are `"A"` and
`"B"`, the lookup of `"Z"` ends as a plain not-found, and the log is not empty:
it holds the "unknown field" diagnostic of line 178. -/
theorem not_found_is_reported :
    byteAt sample_kv_pairs 5 &&& 0xE0 = 0x20 ∧
    sample_parse_dmi_field sample_kv_pairs 6 0 = some "A" ∧
    sample_parse_dmi_field sample_kv_pairs 8 0 = some "B" ∧
    intel_dmi_parser_fn 0x94 sample_parse_dmi_field sample_kv_pairs "Z"
      = ⟨none, [Diag.unknown_field "Z" 0x94],
          [Access.field 8 0, Access.field 6 0]⟩ ∧
    (intel_dmi_parser_fn 0x94 sample_parse_dmi_field sample_kv_pairs "Z").log ≠ [] := by
  decide

/-- Claim C15, amended: a lookup that ends as a normal not-found (the key/value
scan exhausts all pairs, each key decoding to another name, or the
key/type/value scan reaches the end boundary with every tag valid) emits
exactly one diagnostic, "unknown field" with the name and the record type;
every unsupported or malformed condition emits at least one: a bad sub-format
"unsupported table version", a bad type tag "unsupported field type" followed
by "unknown field", an unknown record type "unsupported Intel table". -/
theorem diagnostics_by_outcome (INTEL_SMBIOS : Nat) (parse_dmi_field : FieldParser)
    (dmi : dmi_header) (fieldname : String) :
    (dmi.type = INTEL_SMBIOS → byteAt dmi 5 &&& 0xE0 = 0x20 → 6 < dmi.length →
      fieldname ≠ "Platform" → fieldname ≠ "Version" →
      (∀ j, j < (dmi.length - 6) / 2 →
        ∃ v, parse_dmi_field dmi (6 + 2 * j) 0 = some v ∧ v ≠ fieldname) →
      (intel_dmi_parser_fn INTEL_SMBIOS parse_dmi_field dmi fieldname).value = none ∧
      (intel_dmi_parser_fn INTEL_SMBIOS parse_dmi_field dmi fieldname).log
        = [Diag.unknown_field fieldname dmi.type]) ∧
    (dmi.type = INTEL_SMBIOS → byteAt dmi 5 &&& 0xE0 = 0x40 → 6 < dmi.length →
      fieldname ≠ "Platform" → fieldname ≠ "Version" →
      ∀ n, dmi.length ≤ ktv_entry dmi n →
      (∀ i, i < n → ktv_entry dmi i < dmi.length ∧
        parse_dmi_field dmi (ktv_entry dmi i) 0 ≠ some fieldname ∧
        1 ≤ byteAt dmi (ktv_entry dmi i + 1) ∧ byteAt dmi (ktv_entry dmi i + 1) ≤ 4) →
      (intel_dmi_parser_fn INTEL_SMBIOS parse_dmi_field dmi fieldname).value = none ∧
      (intel_dmi_parser_fn INTEL_SMBIOS parse_dmi_field dmi fieldname).log
        = [Diag.unknown_field fieldname dmi.type]) ∧
    (dmi.type = INTEL_SMBIOS → byteAt dmi 5 &&& 0xE0 > 0x40 →
      (intel_dmi_parser_fn INTEL_SMBIOS parse_dmi_field dmi fieldname).log
        = [Diag.unsupported_table_version (byteAt dmi 5)]) ∧
    (dmi.type = INTEL_SMBIOS → byteAt dmi 5 &&& 0xE0 = 0x40 →
      fieldname ≠ "Platform" → fieldname ≠ "Version" →
      ∀ n, ktv_entry dmi n < dmi.length →
      (∀ i, i < n → parse_dmi_field dmi (ktv_entry dmi i) 0 ≠ some fieldname ∧
        1 ≤ byteAt dmi (ktv_entry dmi i + 1) ∧ byteAt dmi (ktv_entry dmi i + 1) ≤ 4) →
      (byteAt dmi (ktv_entry dmi n + 1) = 0 ∨ byteAt dmi (ktv_entry dmi n + 1) > 4) →
      (intel_dmi_parser_fn INTEL_SMBIOS parse_dmi_field dmi fieldname).log
        = [Diag.unsupported_field_type (byteAt dmi (ktv_entry dmi n + 1)),
           Diag.unknown_field fieldname dmi.type]) ∧
    (dmi.type ≠ INTEL_SMBIOS →
      (intel_dmi_parser_fn INTEL_SMBIOS parse_dmi_field dmi fieldname).log
        = [Diag.unsupported_intel_table dmi.type]) := by
  refine ⟨?_, ?_, ?_, ?_, ?_⟩
  · intro htype hver hlen hP hV hkeys
    have h := kv_loop_finished parse_dmi_field dmi fieldname ((dmi.length - 6) / 2) [] hkeys
    rw [parser_kv_eq INTEL_SMBIOS parse_dmi_field dmi fieldname htype hver hlen hP hV]
    revert h
    generalize kv_loop parse_dmi_field dmi fieldname ((dmi.length - 6) / 2) [] = r
    rcases r with ⟨e, tr⟩
    intro h
    simp only at h
    subst h
    exact ⟨rfl, rfl⟩
  · intro htype hver hlen hP hV n hend hentries
    obtain ⟨tr, heq, -⟩ := ktv_loop_reach parse_dmi_field dmi fieldname n
      (fun i hi => (hentries i hi).1) (fun i hi => (hentries i hi).2)
    rw [parser_ktv_eq INTEL_SMBIOS parse_dmi_field dmi fieldname htype hver hlen hP hV, heq,
      ktv_loop_done parse_dmi_field dmi fieldname _ tr hend]
    exact ⟨rfl, rfl⟩
  · intro htype hver
    have hleg : is_legacy_table (byteAt dmi 5) = false := by
      simp only [is_legacy_table, FORMAT_FIELD_MASK, FORMAT_FIXED_TABLE, beq_eq_false_iff_ne]
      omega
    simp only [intel_dmi_parser_fn, htype, offsetof_Version, sizeof_dmi_header, hleg,
      intel_parse_kv_table, FORMAT_FIELD_MASK, FORMAT_KTV_TABLE]
    simp [hver]
  · intro htype hver hP hV n hin hearlier hbad
    have hlen : 6 < dmi.length := lt_of_le_of_lt (ktv_entry_ge dmi n) hin
    obtain ⟨tr, heq, -⟩ := ktv_loop_reach parse_dmi_field dmi fieldname n
      (fun i hi => lt_of_le_of_lt (ktv_entry_mono dmi (Nat.le_of_lt hi)) hin) hearlier
    rw [parser_ktv_eq INTEL_SMBIOS parse_dmi_field dmi fieldname htype hver hlen hP hV, heq,
      ktv_loop_bad_tag parse_dmi_field dmi fieldname _ tr hin hbad]
  · intro htype
    simp [intel_dmi_parser_fn, htype]

/-- Claim C15, amended, on the sample records: the not-found lookups of `"Z"`
in `sample_kv_pairs` and `sample_ktv_words` log "unknown field" alone, the
version byte 0x61 of `sample_reserved`, the tag 9 of `sample_ktv_bad_tag` and
the type 0x01 of `sample_foreign` are reported. -/
theorem diagnostics_by_outcome_witness :
    (intel_dmi_parser_fn 0x94 sample_parse_dmi_field sample_kv_pairs "Z").log
      = [Diag.unknown_field "Z" 0x94] ∧
    (intel_dmi_parser_fn 0x94 sample_parse_dmi_field sample_ktv_words "Z").log
      = [Diag.unknown_field "Z" 0x94] ∧
    (intel_dmi_parser_fn 0x94 sample_parse_dmi_field sample_reserved "Z").log
      = [Diag.unsupported_table_version 0x61] ∧
    (intel_dmi_parser_fn 0x94 sample_parse_dmi_field sample_ktv_bad_tag "Z").log
      = [Diag.unsupported_field_type 9, Diag.unknown_field "Z" 0x94] ∧
    (intel_dmi_parser_fn 0x94 sample_parse_dmi_field sample_foreign "Z").log
      = [Diag.unsupported_intel_table 0x01] :=
  ⟨((diagnostics_by_outcome 0x94 sample_parse_dmi_field sample_kv_pairs "Z").1 rfl
      (by decide) (by decide) (by decide) (by decide)
      (by intro j hj; have hj2 : j < 2 := hj; interval_cases j <;> decide)).2,
   ((diagnostics_by_outcome 0x94 sample_parse_dmi_field sample_ktv_words "Z").2.1 rfl
      (by decide) (by decide) (by decide) (by decide) 2 (by decide)
      (by intro i hi; interval_cases i <;> decide)).2,
   (diagnostics_by_outcome 0x94 sample_parse_dmi_field sample_reserved "Z").2.2.1 rfl
      (by decide),
   (diagnostics_by_outcome 0x94 sample_parse_dmi_field sample_ktv_bad_tag "Z").2.2.2.1 rfl
      (by decide) (by decide) (by decide) 1 (by decide)
      (by intro i hi; interval_cases i; decide) (by decide),
   (diagnostics_by_outcome 0x94 sample_parse_dmi_field sample_foreign "Z").2.2.2.2
      (by decide)⟩

/-! ## Termination of the forward scan -/

/-- Claim C16: the forward scan is the total function `ktv_loop`, recursive on
the distance `dmi.length - offset`.  In a key/type/value record every
iteration that neither returns nor stops on a bad tag moves the cursor forward
by exactly 3 bytes (tag Byte or String), 4 bytes (Word) or 6 bytes (DWord), and
a lookup examines at most `ceil((length - 6) / 3)` entries, counted by their
type-tag reads. -/
theorem ktv_scan_bounded (INTEL_SMBIOS : Nat) (parse_dmi_field : FieldParser)
    (dmi : dmi_header) (fieldname : String)
    (htype : dmi.type = INTEL_SMBIOS) (hver : byteAt dmi 5 &&& 0xE0 = 0x40) :
    (∀ k trace, k < dmi.length → parse_dmi_field dmi k 0 ≠ some fieldname →
      1 ≤ byteAt dmi (k + 1) → byteAt dmi (k + 1) ≤ 4 →
      ktv_loop parse_dmi_field dmi fieldname k trace
        = ktv_loop parse_dmi_field dmi fieldname
            (k + (if byteAt dmi (k + 1) = 2 then 4 else if byteAt dmi (k + 1) = 3 then 6 else 3))
            (trace ++ [Access.field k 0, Access.byte (k + 1)])) ∧
    tag_reads (intel_dmi_parser_fn INTEL_SMBIOS parse_dmi_field dmi fieldname).trace
      ≤ (dmi.length - 6 + 2) / 3 := by
  constructor
  · intro k trace hin hkey h1 h4
    rw [ktv_loop_skip parse_dmi_field dmi fieldname k trace hin hkey h1 h4]
    have hnext : ktv_next dmi k
        = k + (if byteAt dmi (k + 1) = 2 then 4 else if byteAt dmi (k + 1) = 3 then 6 else 3) := by
      simp only [ktv_next, FIELD_TYPE_STRING]
      generalize byteAt dmi (k + 1) = t at h1 h4
      interval_cases t <;> simp
    rw [hnext]
  · by_cases hno : fieldname = "Platform" ∨ fieldname = "Version" ∨ dmi.length ≤ 6
    · rw [(parser_keyed_no_scan INTEL_SMBIOS parse_dmi_field dmi fieldname htype
        (Or.inr hver) hno).1]
      exact Nat.zero_le _
    · have hP : fieldname ≠ "Platform" := fun h => hno (Or.inl h)
      have hV : fieldname ≠ "Version" := fun h => hno (Or.inr (Or.inl h))
      have hlen : 6 < dmi.length := by
        have : ¬ dmi.length ≤ 6 := fun h => hno (Or.inr (Or.inr h))
        omega
      rw [parser_ktv_trace INTEL_SMBIOS parse_dmi_field dmi fieldname htype hver hlen hP hV]
      have h := ktv_loop_tag_reads_le parse_dmi_field dmi fieldname (dmi.length - 6)
        sizeof_platform_header [] (by simp [sizeof_platform_header, sizeof_dmi_header])
      simpa [tag_reads, sizeof_platform_header, sizeof_dmi_header] using h

/-- Claim C16 at `sample_ktv_words` (declared length 16) and the name `"B"`:
the Word entry at offset 6 moves the cursor by 4, and at most 4 entries are
examined. -/
theorem ktv_scan_bounded_witness :
    ktv_loop sample_parse_dmi_field sample_ktv_words "B" 6 []
      = ktv_loop sample_parse_dmi_field sample_ktv_words "B" (6 + 4)
          [Access.field 6 0, Access.byte 7] ∧
    tag_reads (intel_dmi_parser_fn 0x94 sample_parse_dmi_field sample_ktv_words "B").trace
      ≤ 4 :=
  have h := ktv_scan_bounded 0x94 sample_parse_dmi_field sample_ktv_words "B" rfl (by decide)
  ⟨h.1 6 [] (by decide) (by decide) (by decide) (by decide), h.2⟩

/-! ## Keys that do not decode -/

/-- Claim C17, the code at a failing input.  In the key/value record
`sample_kv_match_below_null` the key of pair 1 (offset 8) does not decode and
the key of pair 0 decodes to `"A"`.  The lookup of `"A"` does not skip pair 1:
it returns that pair's value byte (offset 9), `"n"`, and never looks at pair 0. -/
theorem kv_undecodable_key_taken_as_match :
    byteAt sample_kv_match_below_null 5 &&& 0xE0 = 0x20 ∧
    sample_parse_dmi_field sample_kv_match_below_null 6 0 = some "A" ∧
    sample_parse_dmi_field sample_kv_match_below_null 7 0 = some "a" ∧
    sample_parse_dmi_field sample_kv_match_below_null 8 0 = none ∧
    intel_dmi_parser_fn 0x94 sample_parse_dmi_field sample_kv_match_below_null "A"
      = ⟨some "n", [], [Access.field 8 0, Access.field 9 0]⟩ := by
  decide

/-! ## Offsets of the reverse scan -/

/-- Claim C18: for a key/value record with declared length above 6 and a field
name other than `"Platform"` and `"Version"`, every access of the lookup is a
field extraction of width 0 at a key offset `6 + 2 * i` or a value offset
`7 + 2 * i` with `i < (length - 6) / 2`; all offsets lie in `[6, length)`, and
when `length - 6` is odd the last byte of the record is never touched. -/
theorem kv_scan_stays_in_payload (INTEL_SMBIOS : Nat) (parse_dmi_field : FieldParser)
    (dmi : dmi_header) (fieldname : String)
    (htype : dmi.type = INTEL_SMBIOS) (hver : byteAt dmi 5 &&& 0xE0 = 0x20)
    (hlen : 6 < dmi.length)
    (hP : fieldname ≠ "Platform") (hV : fieldname ≠ "Version") :
    ∀ a ∈ (intel_dmi_parser_fn INTEL_SMBIOS parse_dmi_field dmi fieldname).trace,
      (∃ i, i < (dmi.length - 6) / 2 ∧
        (a = Access.field (6 + 2 * i) 0 ∨ a = Access.field (7 + 2 * i) 0)) ∧
      6 ≤ a.offset ∧ a.offset < dmi.length ∧
      ((dmi.length - 6) % 2 = 1 → a.offset ≠ dmi.length - 1) := by
  intro a ha
  rw [parser_kv_trace INTEL_SMBIOS parse_dmi_field dmi fieldname htype hver hlen hP hV] at ha
  rcases kv_loop_trace parse_dmi_field dmi fieldname _ [] a ha with h | ⟨i, hi, h⟩
  · simp at h
  · refine ⟨⟨i, hi, h⟩, ?_⟩
    rcases h with h | h <;> subst h <;> simp only [Access.offset] <;> omega

/-- Claim C18 at `sample_kv_pairs`, of declared length 11 (two pairs and a
trailing byte at offset 10), for the name `"Z"`: the keys at offsets 8 and 6
are the only accesses. -/
theorem kv_scan_stays_in_payload_witness :
    (intel_dmi_parser_fn 0x94 sample_parse_dmi_field sample_kv_pairs "Z").trace
      = [Access.field 8 0, Access.field 6 0] ∧
    ∀ a ∈ (intel_dmi_parser_fn 0x94 sample_parse_dmi_field sample_kv_pairs "Z").trace,
      (∃ i, i < (sample_kv_pairs.length - 6) / 2 ∧
        (a = Access.field (6 + 2 * i) 0 ∨ a = Access.field (7 + 2 * i) 0)) ∧
      6 ≤ a.offset ∧ a.offset < sample_kv_pairs.length ∧
      ((sample_kv_pairs.length - 6) % 2 = 1 → a.offset ≠ sample_kv_pairs.length - 1) :=
  ⟨by decide,
   kv_scan_stays_in_payload 0x94 sample_parse_dmi_field sample_kv_pairs "Z" rfl
    (by decide) (by decide) (by decide) (by decide)⟩

/-! ## The classifying byte -/

/-- Claim C19: the classifying byte `Version` of `struct platform_header` and
the member `UCodeVersion` of `struct legacy_format` share offset 5.  For a
record of type `INTEL_SMBIOS` a lookup is answered through the fixed-layout
table exactly when `(byte 5 & 0xE0) == 0` and by `intel_parse_kv_table`
otherwise; when byte 5 is 0x20 or greater the lookup of `"GopVersion"` touches
nothing before offset 6, so it is not the extraction at the offset 4 of that
member; and a lookup of `"UCodeVersion"` through the table decodes byte 5,
which is then below 0x20. -/
theorem legacy_dispatch_on_version_byte (INTEL_SMBIOS : Nat) (parse_dmi_field : FieldParser)
    (dmi : dmi_header) (htype : dmi.type = INTEL_SMBIOS) :
    offsetof_legacy_format "UCodeVersion" = offsetof_Version ∧
    offsetof_Version = 5 ∧
    (byteAt dmi 5 &&& 0xE0 = 0 → ∀ field,
      intel_dmi_parser_fn INTEL_SMBIOS parse_dmi_field dmi field
        = match PARSE_FIELD parse_dmi_field legacy_format_desc dmi field with
          | some out => out
          | none => ⟨none, [], []⟩) ∧
    (byteAt dmi 5 &&& 0xE0 ≠ 0 → ∀ field,
      intel_dmi_parser_fn INTEL_SMBIOS parse_dmi_field dmi field
        = intel_parse_kv_table parse_dmi_field dmi field) ∧
    (0x20 ≤ byteAt dmi 5 →
      ∀ a ∈ (intel_dmi_parser_fn INTEL_SMBIOS parse_dmi_field dmi "GopVersion").trace,
        6 ≤ a.offset) ∧
    (byteAt dmi 5 &&& 0xE0 = 0 →
      intel_dmi_parser_fn INTEL_SMBIOS parse_dmi_field dmi "UCodeVersion"
        = ⟨parse_dmi_field dmi 5 0, [], [Access.field 5 0]⟩ ∧
      byteAt dmi 5 < 0x20) := by
  have hlegacy : byteAt dmi 5 &&& 0xE0 = 0 → ∀ field,
      intel_dmi_parser_fn INTEL_SMBIOS parse_dmi_field dmi field
        = match PARSE_FIELD parse_dmi_field legacy_format_desc dmi field with
          | some out => out
          | none => ⟨none, [], []⟩ := by
    intro h field
    have hleg : is_legacy_table (byteAt dmi 5) = true := by
      simp only [is_legacy_table, FORMAT_FIELD_MASK, FORMAT_FIXED_TABLE, h, beq_self_eq_true]
    simp only [intel_dmi_parser_fn, htype, offsetof_Version, sizeof_dmi_header, hleg]
    simp
  have hkeyed : byteAt dmi 5 &&& 0xE0 ≠ 0 → ∀ field,
      intel_dmi_parser_fn INTEL_SMBIOS parse_dmi_field dmi field
        = intel_parse_kv_table parse_dmi_field dmi field := by
    intro h field
    have hleg : is_legacy_table (byteAt dmi 5) = false := by
      simp only [is_legacy_table, FORMAT_FIELD_MASK, FORMAT_FIXED_TABLE, beq_eq_false_iff_ne]
      exact h
    simp only [intel_dmi_parser_fn, htype, offsetof_Version, sizeof_dmi_header, hleg]
    simp
  refine ⟨by decide, by decide, hlegacy, hkeyed, ?_, ?_⟩
  · intro hge a ha
    have hlt := byteAt_lt dmi 5
    have hne : byteAt dmi 5 &&& 0xE0 ≠ 0 := by
      intro h
      have := (land_top_bits_zero_iff _ hlt).1 h
      omega
    have hG1 : ("GopVersion" : String) ≠ "Platform" := by decide
    have hG2 : ("GopVersion" : String) ≠ "Version" := by decide
    rcases land_top_bits_cases _ hlt with h | h | h | h
    · exact absurd h hne
    · by_cases hlen : dmi.length ≤ 6
      · rw [(parser_keyed_no_scan INTEL_SMBIOS parse_dmi_field dmi "GopVersion" htype
          (Or.inl h) (Or.inr (Or.inr hlen))).2 hG1 hG2] at ha
        simp at ha
      · rw [parser_kv_trace INTEL_SMBIOS parse_dmi_field dmi "GopVersion" htype h
          (by omega) hG1 hG2] at ha
        rcases kv_loop_trace parse_dmi_field dmi "GopVersion" _ [] a ha with h1 | ⟨i, _, h1⟩
        · simp at h1
        · rcases h1 with h1 | h1 <;> subst h1 <;> simp only [Access.offset] <;> omega
    · by_cases hlen : dmi.length ≤ 6
      · rw [(parser_keyed_no_scan INTEL_SMBIOS parse_dmi_field dmi "GopVersion" htype
          (Or.inr h) (Or.inr (Or.inr hlen))).2 hG1 hG2] at ha
        simp at ha
      · rw [parser_ktv_trace INTEL_SMBIOS parse_dmi_field dmi "GopVersion" htype h
          (by omega) hG1 hG2] at ha
        rcases ktv_loop_trace_ge parse_dmi_field dmi "GopVersion" _ _ [] (le_refl _) a ha
          with h1 | h1
        · simp at h1
        · simpa [sizeof_platform_header, sizeof_dmi_header] using h1
    · have hout : intel_dmi_parser_fn INTEL_SMBIOS parse_dmi_field dmi "GopVersion"
          = ⟨none, [Diag.unsupported_table_version (byteAt dmi 5)], []⟩ := by
        rw [hkeyed hne]
        simp only [intel_parse_kv_table, offsetof_Version, sizeof_dmi_header,
          FORMAT_FIELD_MASK, FORMAT_KTV_TABLE]
        simp [h]
      rw [hout] at ha
      simp at ha
  · intro h
    refine ⟨?_, (land_top_bits_zero_iff _ (byteAt_lt dmi 5)).1 h⟩
    rw [hlegacy h, PARSE_FIELD_legacy parse_dmi_field dmi 1 "UCodeVersion" (by decide)]

/-- Claim C19 at `sample_legacy` (byte 5 is 0x01: the lookup of `"UCodeVersion"`
decodes it) and at `sample_kv_pairs` (byte 5 is 0x20: the lookup of
`"GopVersion"` stays at or after offset 6). -/
theorem legacy_dispatch_on_version_byte_witness :
    (intel_dmi_parser_fn 0x94 sample_parse_dmi_field sample_legacy "UCodeVersion"
        = ⟨sample_parse_dmi_field sample_legacy 5 0, [], [Access.field 5 0]⟩ ∧
      byteAt sample_legacy 5 < 0x20) ∧
    ∀ a ∈ (intel_dmi_parser_fn 0x94 sample_parse_dmi_field sample_kv_pairs
        "GopVersion").trace, 6 ≤ a.offset :=
  ⟨(legacy_dispatch_on_version_byte 0x94 sample_parse_dmi_field sample_legacy
      rfl).2.2.2.2.2 (by decide),
   (legacy_dispatch_on_version_byte 0x94 sample_parse_dmi_field sample_kv_pairs
      rfl).2.2.2.2.1 (by decide)⟩

/-! ## The key-based decoder on its own -/

/-- Claim C20 as stated, refuted on `sample_legacy`, whose version byte 0x01 has
the legacy top bits 0x00: `intel_parse_kv_table`, called on its own, answers
the lookups of `"Platform"` and `"Version"` with the field extraction at
offsets 4 and 5. -/
theorem kv_table_decoder_accepts_legacy_pattern :
    byteAt sample_legacy 5 &&& 0xE0 = 0 ∧
    intel_parse_kv_table sample_parse_dmi_field sample_legacy "Platform"
      = ⟨some "A", [], [Access.field 4 0]⟩ ∧
    intel_parse_kv_table sample_parse_dmi_field sample_legacy "Version"
      = ⟨sample_parse_dmi_field sample_legacy 5 1, [], [Access.field 5 1]⟩ ∧
    sample_parse_dmi_field sample_legacy 5 1 ≠ none := by
  decide

/-- Claim C20, amended: `intel_parse_kv_table`, taken on its own, rejects only
the version bytes whose top three bits are greater than 0x40: then it returns
no value for every field name, `"Platform"` and `"Version"` included.  The one
other pattern that is neither 0x20 nor 0x40 is the legacy 0x00: there it
returns no value and touches nothing for every field name other than
`"Platform"` and `"Version"`, and still extracts these two at offsets 4 and 5. -/
theorem kv_table_decoder_on_other_classes (parse_dmi_field : FieldParser) (dmi : dmi_header)
    (hkv : byteAt dmi 5 &&& 0xE0 ≠ 0x20) (hktv : byteAt dmi 5 &&& 0xE0 ≠ 0x40) :
    (byteAt dmi 5 &&& 0xE0 > 0x40 ∨ byteAt dmi 5 &&& 0xE0 = 0) ∧
    (byteAt dmi 5 &&& 0xE0 > 0x40 → ∀ fieldname,
      intel_parse_kv_table parse_dmi_field dmi fieldname
        = ⟨none, [Diag.unsupported_table_version (byteAt dmi 5)], []⟩) ∧
    (byteAt dmi 5 &&& 0xE0 = 0 →
      (∀ fieldname : String, fieldname ≠ "Platform" → fieldname ≠ "Version" →
        (intel_parse_kv_table parse_dmi_field dmi fieldname).value = none ∧
        (intel_parse_kv_table parse_dmi_field dmi fieldname).trace = [] ∧
        Diag.unknown_field fieldname dmi.type
          ∈ (intel_parse_kv_table parse_dmi_field dmi fieldname).log) ∧
      intel_parse_kv_table parse_dmi_field dmi "Platform"
        = ⟨parse_dmi_field dmi 4 0, [], [Access.field 4 0]⟩ ∧
      intel_parse_kv_table parse_dmi_field dmi "Version"
        = ⟨parse_dmi_field dmi 5 1, [], [Access.field 5 1]⟩) := by
  refine ⟨?_, ?_, ?_⟩
  · rcases land_top_bits_cases _ (byteAt_lt dmi 5) with h | h | h | h
    · exact Or.inr h
    · exact absurd h hkv
    · exact absurd h hktv
    · exact Or.inl h
  · intro h fieldname
    simp only [intel_parse_kv_table, offsetof_Version, sizeof_dmi_header,
      FORMAT_FIELD_MASK, FORMAT_KTV_TABLE]
    simp [h]
  · intro h
    refine ⟨?_, ?_, ?_⟩
    · intro fieldname hP hV
      simp only [intel_parse_kv_table, offsetof_Version, offsetof_Platform,
        sizeof_dmi_header, FORMAT_FIELD_MASK, FORMAT_KTV_TABLE, FORMAT_KV_TABLE,
        sizeof_platform_header, h]
      by_cases hlen : dmi.length ≤ 6
      · simp [hP, hV, hlen]
      · simp [hP, hV, hlen]
    · simp only [intel_parse_kv_table, offsetof_Version, offsetof_Platform,
        sizeof_dmi_header, FORMAT_FIELD_MASK, FORMAT_KTV_TABLE, h]
      simp
    · simp only [intel_parse_kv_table, offsetof_Version, offsetof_Platform,
        sizeof_dmi_header, FORMAT_FIELD_MASK, FORMAT_KTV_TABLE, h]
      simp

/-- Claim C20, amended, at `sample_reserved` (top bits 0x60, name `"Platform"`)
and at `sample_legacy` (top bits 0x00, names `"RC6"` and `"Platform"`). -/
theorem kv_table_decoder_on_other_classes_witness :
    intel_parse_kv_table sample_parse_dmi_field sample_reserved "Platform"
      = ⟨none, [Diag.unsupported_table_version 0x61], []⟩ ∧
    (intel_parse_kv_table sample_parse_dmi_field sample_legacy "RC6").value = none ∧
    intel_parse_kv_table sample_parse_dmi_field sample_legacy "Platform"
      = ⟨sample_parse_dmi_field sample_legacy 4 0, [], [Access.field 4 0]⟩ :=
  ⟨(kv_table_decoder_on_other_classes sample_parse_dmi_field sample_reserved
      (by decide) (by decide)).2.1 (by decide) "Platform",
   (((kv_table_decoder_on_other_classes sample_parse_dmi_field sample_legacy
      (by decide) (by decide)).2.2 (by decide)).1 "RC6" (by decide) (by decide)).1,
   ((kv_table_decoder_on_other_classes sample_parse_dmi_field sample_legacy
      (by decide) (by decide)).2.2 (by decide)).2.1⟩

end DmiIntel
